import Mathlib

/-!
# Face-visibility mask generators of silica-display

A shallow embedding of the two C fragments

* `src/silica/viz/common/grid/surface_inline.c` (occupancy-gated variant),
* `glass_inline.c` (decoupled-selection variant),

and proofs about them.

Conventions of the embedding.

* The C arrays `grid`, `visible`, `overlaps_grid` and `nonoverlap_mask` are
  lists of booleans.  Every array access is bounds-checked: an access outside
  the array stops the run with a `Fault` naming the array and the index.
* The `int` variables `i`, `j`, `k`, `side`, `pos`, `cube`, `side_ix` only
  ever hold values that start at `0` and grow, so they are natural numbers.
  The constants `W`, `H`, `D` are parameters; a dimension that is not
  positive runs its loop zero times, exactly as the dimension `0` does.
* A loop `for (int x = 0; x < n; x++) body` whose body does not assign `x`
  is the monadic left fold of `body` over `List.range n`.
* `State.written` is a ghost field: the indices stored into
  `nonoverlap_mask` so far, in program order.  No program value depends on it.
* The trailing `printf` diagnostic of `glass_inline.c` (comparison of `cube`
  with the constant `CUBES`) only prints; it is not part of the model.
* Statements about the runs are phrased with `cubesBefore`, `selected`,
  `lastWriter`, `writesOf` and `visitOrder`, which describe positions and
  slots; `prefixSumForm` is the parallel form that the spec describes, and
  `pos32`, `overlaps_ix32`, `side_ix32` are the index expressions with every
  intermediate result reduced modulo `2^32`.
-/

namespace Silica

/-- Modelled from the spec: the constant `SQUARES_PER_CUBE`, whose definition
is not among the sources; the spec fixes it to the number of faces of a cube. -/
def SQUARES_PER_CUBE : Nat := 6

/-- An out-of-bounds array access, with the offending index. -/
inductive Fault where
  | gridRead (pos : Nat)
  | visibleRead (pos : Nat)
  | overlapsRead (ix : Nat)
  | maskWrite (ix : Nat)
  deriving DecidableEq, Repr

deriving instance DecidableEq for Except

/-- The variables that the fragments assign: the counter `cube` and the array
`nonoverlap_mask`, together with the ghost log of stored indices. -/
structure State where
  cube : Nat
  nonoverlap_mask : List Bool
  written : List Nat
  deriving DecidableEq, Repr

/-- Bounds-checked read `a[ix]`. -/
def readAt (fault : Nat → Fault) (a : List Bool) (ix : Nat) : Except Fault Bool :=
  match a[ix]? with
  | some b => Except.ok b
  | none => Except.error (fault ix)

/-- Bounds-checked store `a[ix] = b`. -/
def writeAt (a : List Bool) (ix : Nat) (b : Bool) : Except Fault (List Bool) :=
  if ix < a.length then Except.ok (a.set ix b) else Except.error (Fault.maskWrite ix)

/-- The linear index `int pos = i * H * D + j * D + k;`. -/
def pos (H D i j k : Nat) : Nat := i * H * D + j * D + k

/-- The index `side * W * H * D + pos` at which `overlaps_grid` is read. -/
def overlaps_ix (W H D side pos : Nat) : Nat := side * W * H * D + pos

/-- The index `int side_ix = cube * SQUARES_PER_CUBE + side;`. -/
def side_ix (cube side : Nat) : Nat := cube * SQUARES_PER_CUBE + side

/-- Body of the `side` loop (the same in both fragments):
`nonoverlap_mask[side_ix] = overlaps_grid[side * W * H * D + pos];`. -/
def sideBody (W H D : Nat) (overlaps_grid : List Bool) (pos : Nat)
    (s : State) (side : Nat) : Except Fault State := do
  let v ← readAt Fault.overlapsRead overlaps_grid (overlaps_ix W H D side pos)
  let m ← writeAt s.nonoverlap_mask (side_ix s.cube side) v
  pure { s with nonoverlap_mask := m, written := s.written ++ [side_ix s.cube side] }

/-- The loop `for (int side = 0; side < SQUARES_PER_CUBE; side++)`. -/
def sideLoop (W H D : Nat) (overlaps_grid : List Bool) (pos : Nat)
    (s : State) : Except Fault State :=
  (List.range SQUARES_PER_CUBE).foldlM (sideBody W H D overlaps_grid pos) s

/-- Body of the innermost loop of `surface_inline.c` at position `pos`:
`if (grid[pos]) { side loop; cube++; }`. -/
def surfaceCell (W H D : Nat) (grid overlaps_grid : List Bool)
    (s : State) (pos : Nat) : Except Fault State := do
  let g ← readAt Fault.gridRead grid pos
  if g then
    let s1 ← sideLoop W H D overlaps_grid pos s
    pure { s1 with cube := s1.cube + 1 }
  else
    pure s

/-- Body of the innermost loop of `glass_inline.c` at position `pos`:
`if (visible[pos]) { side loop }  if (grid[pos]) { cube++; }`. -/
def glassCell (W H D : Nat) (grid visible overlaps_grid : List Bool)
    (s : State) (pos : Nat) : Except Fault State := do
  let v ← readAt Fault.visibleRead visible pos
  let s1 ← (if v then sideLoop W H D overlaps_grid pos s else pure s)
  let g ← readAt Fault.gridRead grid pos
  if g then
    pure { s1 with cube := s1.cube + 1 }
  else
    pure s1

/-- The three nested loops over `i`, `j`, `k` shared by both fragments, with
the innermost body `cell` run at `pos = i * H * D + j * D + k`. -/
def traverse (W H D : Nat) (cell : State → Nat → Except Fault State)
    (s : State) : Except Fault State :=
  (List.range W).foldlM (fun s i =>
    (List.range H).foldlM (fun s j =>
      (List.range D).foldlM (fun s k => cell s (pos H D i j k)) s) s) s

/-- The fragment `surface_inline.c`: `int cube = 0;` followed by the loops,
started on the mask `nonoverlap_mask`. -/
def surface_inline (W H D : Nat) (grid overlaps_grid nonoverlap_mask : List Bool) :
    Except Fault State :=
  traverse W H D (surfaceCell W H D grid overlaps_grid)
    { cube := 0, nonoverlap_mask := nonoverlap_mask, written := [] }

/-- The fragment `glass_inline.c`: `int cube = 0;` followed by the loops,
started on the mask `nonoverlap_mask`. -/
def glass_inline (W H D : Nat) (grid visible overlaps_grid nonoverlap_mask : List Bool) :
    Except Fault State :=
  traverse W H D (glassCell W H D grid visible overlaps_grid)
    { cube := 0, nonoverlap_mask := nonoverlap_mask, written := [] }

/-- Number of positions `q < p` with `grid[q]` true: the value of `cube` when
the traversal reaches position `p`. -/
def cubesBefore (grid : List Bool) (p : Nat) : Nat := (grid.take p).count true

/-- The last position below `m` that is visible and reaches the traversal with
counter value `c`, if there is one. -/
def lastWriter (grid visible : List Bool) : Nat → Nat → Option Nat
  | 0, _ => none
  | m + 1, c =>
    if visible[m]? = some true ∧ cubesBefore grid m = c then some m
    else lastWriter grid visible m c

/-- The positions below `n` at which `grid` is true, in increasing order. -/
def selected (grid : List Bool) (n : Nat) : List Nat :=
  (List.range n).filter (fun p => grid[p]? = some true)

/-- What the first `n` rounds of the side loop at position `p` have done when
they take `s` to `s'`. -/
structure SidePost (W H D : Nat) (ov : List Bool) (p n : Nat) (s s' : State) : Prop where
  cube_eq : s'.cube = s.cube
  length_eq : s'.nonoverlap_mask.length = s.nonoverlap_mask.length
  written_eq : s'.written = s.written ++ (List.range n).map (side_ix s.cube)
  in_bounds : ∀ side, side < n → side_ix s.cube side < s.nonoverlap_mask.length
  copied : ∀ side, side < n → ∃ v, ov[overlaps_ix W H D side p]? = some v ∧
    s'.nonoverlap_mask[side_ix s.cube side]? = some v
  frame : ∀ ix, (∀ side, side < n → ix ≠ side_ix s.cube side) →
    s'.nonoverlap_mask[ix]? = s.nonoverlap_mask[ix]?

/-- The stores of a run of `glass_inline.c` over the positions below `m`, in
program order: each visible position `p` stores at the six indices of the
slot `cubesBefore grid p`. -/
def writesOf (grid visible : List Bool) (m : Nat) : List Nat :=
  (List.range m).flatMap (fun p =>
    if visible[p]? = some true then
      (List.range 6).map (side_ix (cubesBefore grid p))
    else [])

/-- The state `s` reached by the cell loop of `glass_inline.c` after the
positions below `m`, started with `cube = 0` on the mask `mask0`. -/
structure GlassInv (W H D : Nat) (grid visible ov mask0 : List Bool) (m : Nat)
    (s : State) : Prop where
  cube_eq : s.cube = cubesBefore grid m
  length_eq : s.nonoverlap_mask.length = mask0.length
  written_eq : s.written = writesOf grid visible m
  grid_read : m ≤ grid.length
  visible_read : m ≤ visible.length
  stores : ∀ p, p < m → visible[p]? = some true → ∀ side, side < 6 →
    overlaps_ix W H D side p < ov.length ∧ side_ix (cubesBefore grid p) side < mask0.length
  content : ∀ c side, side < 6 →
    s.nonoverlap_mask[side_ix c side]? =
      match lastWriter grid visible m c with
      | some p => ov[overlaps_ix W H D side p]?
      | none => mask0[side_ix c side]?

/-- The values that `pos` takes, in the order in which the three nested
loops compute them. -/
def visitOrder (W H D : Nat) : List Nat :=
  (List.range W).flatMap (fun i =>
    (List.range H).flatMap (fun j =>
      (List.range D).map (fun k => pos H D i j k)))

/-- Prefix-sum form of the spec, one store: cell `p` has been assigned the
slot `cubesBefore grid p` beforehand, and face `side` of it is copied there.
This is the parallel form that the spec describes, not code of the repository;
it is compared with `surface_inline` below. -/
def prefixStore (W H D : Nat) (grid overlaps_grid : List Bool) (p : Nat)
    (mask : List Bool) (side : Nat) : Except Fault (List Bool) := do
  let v ← readAt Fault.overlapsRead overlaps_grid (overlaps_ix W H D side p)
  writeAt mask (side_ix (cubesBefore grid p) side) v

/-- Prefix-sum form of the spec, one cell: its six stores. -/
def prefixCell (W H D : Nat) (grid overlaps_grid : List Bool)
    (mask : List Bool) (p : Nat) : Except Fault (List Bool) :=
  (List.range SQUARES_PER_CUBE).foldlM (prefixStore W H D grid overlaps_grid p) mask

/-- Prefix-sum form of the spec: the per-cell stores performed for the cells
of `order`, in that order, on the starting mask. -/
def prefixSumForm (W H D : Nat) (grid overlaps_grid nonoverlap_mask : List Bool)
    (order : List Nat) : Except Fault (List Bool) :=
  order.foldlM (prefixCell W H D grid overlaps_grid) nonoverlap_mask

/-- The value that a 32-bit `int` holds after an operation whose exact result
is `x`: the result reduced modulo `2^32`. -/
def wrap32 (x : Nat) : Nat := x % 2 ^ 32

/-- The largest value of a 32-bit signed `int`. -/
def INT_MAX : Nat := 2 ^ 31 - 1

/-- The expression `i * H * D + j * D + k` evaluated left to right with every
intermediate result reduced modulo `2^32`. -/
def pos32 (H D i j k : Nat) : Nat :=
  wrap32 (wrap32 (wrap32 (wrap32 (i * H) * D) + wrap32 (j * D)) + k)

/-- The expression `side * W * H * D + pos` with every intermediate result
reduced modulo `2^32`. -/
def overlaps_ix32 (W H D side pos : Nat) : Nat :=
  wrap32 (wrap32 (wrap32 (wrap32 (side * W) * H) * D) + pos)

/-- The expression `cube * SQUARES_PER_CUBE + side` with every intermediate
result reduced modulo `2^32`. -/
def side_ix32 (cube side : Nat) : Nat :=
  wrap32 (wrap32 (cube * SQUARES_PER_CUBE) + side)

/-! ## Monadic bookkeeping -/

theorem bind_eq_ok {ε α β : Type} (x : Except ε α) (f : α → Except ε β) (b : β) :
    (x >>= f) = Except.ok b ↔ ∃ a, x = Except.ok a ∧ f a = Except.ok b := by
  cases x with
  | error e => simp [Bind.bind, Except.bind]
  | ok a => simp [Bind.bind, Except.bind]

theorem pure_eq_ok {ε α : Type} (a b : α) :
    (pure a : Except ε α) = Except.ok b ↔ a = b := by
  simp [pure, Except.pure]

theorem foldlM_range_succ {ε σ : Type} (f : σ → Nat → Except ε σ) (n : Nat) (s : σ) :
    (List.range (n + 1)).foldlM f s = (List.range n).foldlM f s >>= fun t => f t n := by
  rw [List.range_succ, List.foldlM_append]
  congr 1
  funext t
  simp [List.foldlM_cons, List.foldlM_nil]

theorem readAt_eq_ok (fault : Nat → Fault) (a : List Bool) (ix : Nat) (b : Bool) :
    readAt fault a ix = Except.ok b ↔ a[ix]? = some b := by
  unfold readAt
  cases h : a[ix]? <;> simp

theorem writeAt_eq_ok (a : List Bool) (ix : Nat) (b : Bool) (a' : List Bool) :
    writeAt a ix b = Except.ok a' ↔ ix < a.length ∧ a' = a.set ix b := by
  unfold writeAt
  by_cases h : ix < a.length
  · simp [h, eq_comm]
  · simp [h]

theorem side_ix_inj (c c' side side' : Nat) (h : side < 6) (h' : side' < 6) :
    side_ix c side = side_ix c' side' ↔ c = c' ∧ side = side' := by
  unfold side_ix SQUARES_PER_CUBE
  omega

/-! ## The side loop -/

theorem sideBody_eq_ok (W H D : Nat) (ov : List Bool) (p : Nat) (s s' : State) (side : Nat) :
    sideBody W H D ov p s side = Except.ok s' ↔
      ∃ v, ov[overlaps_ix W H D side p]? = some v ∧
        side_ix s.cube side < s.nonoverlap_mask.length ∧
        s' = { cube := s.cube,
               nonoverlap_mask := s.nonoverlap_mask.set (side_ix s.cube side) v,
               written := s.written ++ [side_ix s.cube side] } := by
  unfold sideBody
  simp only [bind_eq_ok, readAt_eq_ok, writeAt_eq_ok, pure_eq_ok]
  constructor
  · rintro ⟨v, hv, m, ⟨hlt, rfl⟩, rfl⟩
    exact ⟨v, hv, hlt, rfl⟩
  · rintro ⟨v, hv, hlt, rfl⟩
    exact ⟨v, hv, _, ⟨hlt, rfl⟩, rfl⟩

theorem sidePrefix_post (W H D : Nat) (ov : List Bool) (p : Nat) (s : State) :
    ∀ n s', n ≤ 6 → (List.range n).foldlM (sideBody W H D ov p) s = Except.ok s' →
      SidePost W H D ov p n s s' := by
  intro n
  induction n with
  | zero =>
    intro s' _ h
    simp only [List.range_zero, List.foldlM_nil, pure_eq_ok] at h
    subst h
    exact ⟨rfl, rfl, by simp, by intro _ h; omega, by intro _ h; omega, by intro _ _; rfl⟩
  | succ n ih =>
    intro s' hn h
    rw [foldlM_range_succ, bind_eq_ok] at h
    obtain ⟨t, ht, hstep⟩ := h
    have I := ih t (by omega) ht
    rw [sideBody_eq_ok] at hstep
    obtain ⟨v, hv, hlt, rfl⟩ := hstep
    rw [I.cube_eq] at hlt
    rw [I.length_eq] at hlt
    refine ⟨I.cube_eq, ?_, ?_, ?_, ?_, ?_⟩
    · simp [I.length_eq]
    · simp [I.written_eq, I.cube_eq, List.range_succ]
    · intro side hs
      rcases Nat.lt_succ_iff_lt_or_eq.mp hs with h1 | h1
      · exact I.in_bounds side h1
      · subst h1; exact hlt
    · intro side hs
      rcases Nat.lt_succ_iff_lt_or_eq.mp hs with h1 | h1
      · obtain ⟨w, hw, hm⟩ := I.copied side h1
        refine ⟨w, hw, ?_⟩
        have hne : side_ix t.cube n ≠ side_ix s.cube side := by
          rw [I.cube_eq]
          intro e
          have := (side_ix_inj s.cube s.cube n side (by omega) (by omega)).mp e
          omega
        simp only [List.getElem?_set_ne hne]
        exact hm
      · subst h1
        refine ⟨v, hv, ?_⟩
        simp only [I.cube_eq]
        rw [List.getElem?_set_self]
        rw [I.length_eq]; exact hlt
    · intro ix hix
      have hne : side_ix t.cube n ≠ ix := by
        rw [I.cube_eq]
        exact fun e => hix n (Nat.lt_succ_self n) e.symm
      simp only [List.getElem?_set_ne hne]
      exact I.frame ix (fun side hs => hix side (Nat.lt_succ_of_lt hs))

theorem sidePrefix_total (W H D : Nat) (ov : List Bool) (p : Nat) (s : State) :
    ∀ n, n ≤ 6 → (∀ side, side < n → overlaps_ix W H D side p < ov.length) →
      (∀ side, side < n → side_ix s.cube side < s.nonoverlap_mask.length) →
      ∃ s', (List.range n).foldlM (sideBody W H D ov p) s = Except.ok s' := by
  intro n
  induction n with
  | zero =>
    intro _ _ _
    exact ⟨s, by simp [pure, Except.pure]⟩
  | succ n ih =>
    intro hn hov hmask
    obtain ⟨t, ht⟩ := ih (by omega) (fun side hs => hov side (Nat.lt_succ_of_lt hs))
      (fun side hs => hmask side (Nat.lt_succ_of_lt hs))
    have I := sidePrefix_post W H D ov p s n t (by omega) ht
    rw [foldlM_range_succ, ht]
    have h1 := hov n (Nat.lt_succ_self n)
    have h2 := hmask n (Nat.lt_succ_self n)
    refine ⟨{ cube := t.cube,
              nonoverlap_mask := t.nonoverlap_mask.set (side_ix t.cube n)
                ov[overlaps_ix W H D n p],
              written := t.written ++ [side_ix t.cube n] }, ?_⟩
    show sideBody W H D ov p t n = _
    rw [sideBody_eq_ok]
    exact ⟨ov[overlaps_ix W H D n p], List.getElem?_eq_getElem h1,
      by rw [I.cube_eq, I.length_eq]; exact h2, rfl⟩

theorem sideLoop_post (W H D : Nat) (ov : List Bool) (p : Nat) (s s' : State)
    (h : sideLoop W H D ov p s = Except.ok s') : SidePost W H D ov p 6 s s' :=
  sidePrefix_post W H D ov p s 6 s' (Nat.le_refl 6) h

theorem sideLoop_total (W H D : Nat) (ov : List Bool) (p : Nat) (s : State)
    (hov : ∀ side, side < 6 → overlaps_ix W H D side p < ov.length)
    (hmask : ∀ side, side < 6 → side_ix s.cube side < s.nonoverlap_mask.length) :
    ∃ s', sideLoop W H D ov p s = Except.ok s' :=
  sidePrefix_total W H D ov p s 6 (Nat.le_refl 6) hov hmask

/-! ## The cell bodies -/

theorem cubesBefore_zero (grid : List Bool) : cubesBefore grid 0 = 0 := by
  simp [cubesBefore]

theorem cubesBefore_succ (grid : List Bool) (m : Nat) (b : Bool) (h : grid[m]? = some b) :
    cubesBefore grid (m + 1) = cubesBefore grid m + (if b then 1 else 0) := by
  unfold cubesBefore
  rw [List.take_succ, h, List.count_append]
  cases b <;> simp

theorem cubesBefore_mono (grid : List Bool) (p q : Nat) (h : p ≤ q) :
    cubesBefore grid p ≤ cubesBefore grid q := by
  unfold cubesBefore
  exact List.Sublist.count_le (List.take_sublist_take_left grid h) true

theorem glassCell_eq_ok (W H D : Nat) (grid visible ov : List Bool) (s s' : State) (p : Nat) :
    glassCell W H D grid visible ov s p = Except.ok s' ↔
      ∃ bv bg s1, visible[p]? = some bv ∧ grid[p]? = some bg ∧
        (if bv then sideLoop W H D ov p s else pure s) = Except.ok s1 ∧
        s' = { s1 with cube := s1.cube + (if bg then 1 else 0) } := by
  unfold glassCell
  simp only [bind_eq_ok, readAt_eq_ok]
  constructor
  · rintro ⟨bv, hv, s1, h1, bg, hg, h⟩
    refine ⟨bv, bg, s1, hv, hg, h1, ?_⟩
    cases bg <;> simp only [pure_eq_ok, Bool.false_eq_true, if_false, if_true] at h ⊢
    · exact h.symm
    · exact h.symm
  · rintro ⟨bv, bg, s1, hv, hg, h1, rfl⟩
    refine ⟨bv, hv, s1, h1, bg, hg, ?_⟩
    cases bg <;> simp [pure_eq_ok]

theorem surfaceCell_eq_ok (W H D : Nat) (grid ov : List Bool) (s s' : State) (p : Nat) :
    surfaceCell W H D grid ov s p = Except.ok s' ↔
      glassCell W H D grid grid ov s p = Except.ok s' := by
  rw [glassCell_eq_ok]
  unfold surfaceCell
  simp only [bind_eq_ok, readAt_eq_ok]
  constructor
  · rintro ⟨g, hg, h⟩
    cases g
    · simp only [Bool.false_eq_true, if_false, pure_eq_ok] at h
      exact ⟨false, false, s, hg, hg, by simp [pure_eq_ok], by simp [← h]⟩
    · simp only [if_true, bind_eq_ok, pure_eq_ok] at h
      obtain ⟨s1, h1, rfl⟩ := h
      exact ⟨true, true, s1, hg, hg, by simpa using h1, by simp⟩
  · rintro ⟨bv, bg, s1, hv, hg, h1, rfl⟩
    have e : bv = bg := by rw [hv] at hg; exact Option.some.inj hg
    subst e
    refine ⟨bv, hv, ?_⟩
    cases bv
    · simp only [Bool.false_eq_true, if_false, pure_eq_ok] at h1 ⊢
      subst h1; rfl
    · simp only [if_true, bind_eq_ok, pure_eq_ok] at h1 ⊢
      exact ⟨s1, h1, rfl⟩

/-! ## The cell loop over the linear positions -/

theorem writesOf_succ (grid visible : List Bool) (m : Nat) :
    writesOf grid visible (m + 1) = writesOf grid visible m ++
      (if visible[m]? = some true then (List.range 6).map (side_ix (cubesBefore grid m))
       else []) := by
  simp [writesOf, List.range_succ, List.flatMap_append]

theorem glassFlat_inv (W H D : Nat) (grid visible ov mask0 : List Bool) :
    ∀ m s, (List.range m).foldlM (glassCell W H D grid visible ov)
        { cube := 0, nonoverlap_mask := mask0, written := [] } = Except.ok s →
      GlassInv W H D grid visible ov mask0 m s := by
  intro m
  induction m with
  | zero =>
    intro s h
    simp only [List.range_zero, List.foldlM_nil, pure_eq_ok] at h
    subst h
    exact ⟨by simp [cubesBefore_zero], rfl, by simp [writesOf], Nat.zero_le _, Nat.zero_le _,
      by intro p hp; omega, by intro c side _; simp [lastWriter]⟩
  | succ m ih =>
    intro s h
    rw [foldlM_range_succ, bind_eq_ok] at h
    obtain ⟨t, ht, hstep⟩ := h
    have I := ih t ht
    rw [glassCell_eq_ok] at hstep
    obtain ⟨bv, bg, s1, hv, hg, h1, rfl⟩ := hstep
    have hgl : m < grid.length := (List.getElem?_eq_some.mp hg).1
    have hvl : m < visible.length := (List.getElem?_eq_some.mp hv).1
    cases bv with
    | false =>
      simp only [Bool.false_eq_true, if_false, pure_eq_ok] at h1
      subst h1
      have hnv : ¬ (visible[m]? = some true) := by rw [hv]; simp
      refine ⟨?_, I.length_eq, ?_, hgl, hvl, ?_, ?_⟩
      · simp [I.cube_eq, cubesBefore_succ grid m bg hg]
      · simp [writesOf_succ, hnv, I.written_eq]
      · intro p hp hpv side hs
        rcases Nat.lt_succ_iff_lt_or_eq.mp hp with h2 | h2
        · exact I.stores p h2 hpv side hs
        · subst h2; exact absurd hpv hnv
      · intro c side hs
        simp only [lastWriter, hnv, false_and, if_false]
        exact I.content c side hs
    | true =>
      simp only [if_true] at h1
      have P := sideLoop_post W H D ov m t s1 h1
      have hstore : ∀ side, side < 6 →
          overlaps_ix W H D side m < ov.length ∧
            side_ix (cubesBefore grid m) side < mask0.length := by
        intro side hs
        obtain ⟨v, hv1, _⟩ := P.copied side hs
        refine ⟨(List.getElem?_eq_some.mp hv1).1, ?_⟩
        have := P.in_bounds side hs
        rwa [I.cube_eq, I.length_eq] at this
      refine ⟨?_, ?_, ?_, hgl, hvl, ?_, ?_⟩
      · simp [P.cube_eq, I.cube_eq, cubesBefore_succ grid m bg hg]
      · simp [P.length_eq, I.length_eq]
      · simp [writesOf_succ, hv, P.written_eq, I.written_eq, I.cube_eq]
      · intro p hp hpv side hs
        rcases Nat.lt_succ_iff_lt_or_eq.mp hp with h2 | h2
        · exact I.stores p h2 hpv side hs
        · subst h2; exact hstore side hs
      · intro c side hs
        simp only [lastWriter, hv, true_and]
        by_cases hc : cubesBefore grid m = c
        · simp only [hc, if_true]
          obtain ⟨v, hv1, hv2⟩ := P.copied side hs
          rw [I.cube_eq, hc] at hv2
          rw [hv2, hv1]
        · simp only [hc, if_false]
          rw [← I.content c side hs]
          apply P.frame
          intro side' hs' e
          rw [I.cube_eq] at e
          exact hc ((side_ix_inj c (cubesBefore grid m) side side' hs hs').mp e).1.symm

theorem glassFlat_total (W H D : Nat) (grid visible ov mask0 : List Bool) :
    ∀ m, m ≤ grid.length → m ≤ visible.length →
      (∀ p, p < m → visible[p]? = some true → ∀ side, side < 6 →
        overlaps_ix W H D side p < ov.length ∧
          side_ix (cubesBefore grid p) side < mask0.length) →
      ∃ s, (List.range m).foldlM (glassCell W H D grid visible ov)
        { cube := 0, nonoverlap_mask := mask0, written := [] } = Except.ok s := by
  intro m
  induction m with
  | zero =>
    intro _ _ _
    exact ⟨{ cube := 0, nonoverlap_mask := mask0, written := [] }, by simp [pure, Except.pure]⟩
  | succ m ih =>
    intro hg hv hst
    obtain ⟨t, ht⟩ := ih (by omega) (by omega)
      (fun p hp => hst p (Nat.lt_succ_of_lt hp))
    have I := glassFlat_inv W H D grid visible ov mask0 m t ht
    have hside : ∃ s1, (if visible[m] then sideLoop W H D ov m t else pure t) = Except.ok s1 := by
      by_cases hb : visible[m] = true
      · simp only [hb, if_true]
        have hvm : visible[m]? = some true := by
          rw [List.getElem?_eq_getElem (by omega), hb]
        apply sideLoop_total
        · exact fun side hs => (hst m (Nat.lt_succ_self m) hvm side hs).1
        · intro side hs
          rw [I.cube_eq, I.length_eq]
          exact (hst m (Nat.lt_succ_self m) hvm side hs).2
      · simp only [hb, if_false]
        exact ⟨t, by simp [pure, Except.pure]⟩
    obtain ⟨s1, h1⟩ := hside
    refine ⟨{ s1 with cube := s1.cube + (if grid[m] then 1 else 0) }, ?_⟩
    rw [foldlM_range_succ, ht]
    show glassCell W H D grid visible ov t m = _
    rw [glassCell_eq_ok]
    exact ⟨visible[m], grid[m], s1, List.getElem?_eq_getElem (by omega),
      List.getElem?_eq_getElem (by omega), h1, rfl⟩

/-- The cell loops of the two fragments succeed with the same states when the
write gate of `glass_inline.c` is the occupancy grid itself. -/
theorem surfaceFlat_eq_ok (W H D : Nat) (grid ov : List Bool) (s0 : State) :
    ∀ m s, (List.range m).foldlM (surfaceCell W H D grid ov) s0 = Except.ok s ↔
      (List.range m).foldlM (glassCell W H D grid grid ov) s0 = Except.ok s := by
  intro m
  induction m with
  | zero => intro s; simp
  | succ m ih =>
    intro s
    rw [foldlM_range_succ, foldlM_range_succ, bind_eq_ok, bind_eq_ok]
    constructor
    · rintro ⟨t, ht, h⟩
      exact ⟨t, (ih t).mp ht, (surfaceCell_eq_ok W H D grid ov t s m).mp h⟩
    · rintro ⟨t, ht, h⟩
      exact ⟨t, (ih t).mpr ht, (surfaceCell_eq_ok W H D grid ov t s m).mpr h⟩

/-! ## The nested traversal is the loop over the linear positions -/

theorem foldlM_range_mul {ε σ : Type} (f : σ → Nat → Except ε σ) (n m : Nat) (s : σ) :
    (List.range (n * m)).foldlM f s =
      (List.range n).foldlM
        (fun s i => (List.range m).foldlM (fun s j => f s (i * m + j)) s) s := by
  induction n generalizing s with
  | zero => simp
  | succ n ih =>
    rw [foldlM_range_succ, ← ih, Nat.succ_mul, List.range_add, List.foldlM_append]
    congr 1
    funext t
    rw [List.foldlM_map]

theorem traverse_eq_flat (W H D : Nat) (cell : State → Nat → Except Fault State) (s : State) :
    traverse W H D cell s = (List.range (W * H * D)).foldlM cell s := by
  unfold traverse
  rw [foldlM_range_mul cell (W * H) D s, foldlM_range_mul _ W H s]
  congr 1
  funext s i
  congr 1
  funext s j
  congr 1
  funext s k
  simp [pos, Nat.add_mul]

/-! ## Counting and selecting occupied positions -/

theorem cubesBefore_succ_opt (grid : List Bool) (m : Nat) :
    cubesBefore grid (m + 1) =
      cubesBefore grid m + (if grid[m]? = some true then 1 else 0) := by
  cases h : grid[m]? with
  | none =>
    unfold cubesBefore
    rw [List.take_succ, h]
    simp
  | some b =>
    rw [cubesBefore_succ grid m b h]
    cases b <;> simp

theorem cubesBefore_lt_of_true (grid : List Bool) (p q : Nat) (hpq : p < q)
    (hp : grid[p]? = some true) : cubesBefore grid p < cubesBefore grid q := by
  have h1 := cubesBefore_succ grid p true hp
  have h2 := cubesBefore_mono grid (p + 1) q hpq
  simp only [if_true] at h1
  omega

theorem cubesBefore_eq_count (grid : List Bool) (n : Nat) (h : grid.length ≤ n) :
    cubesBefore grid n = grid.count true := by
  unfold cubesBefore
  rw [List.take_of_length_le h]

theorem selected_succ (grid : List Bool) (n : Nat) :
    selected grid (n + 1) =
      selected grid n ++ (if grid[n]? = some true then [n] else []) := by
  unfold selected
  rw [List.range_succ, List.filter_append]
  by_cases h : grid[n]? = some true <;> simp [h]

theorem selected_length (grid : List Bool) (n : Nat) :
    (selected grid n).length = cubesBefore grid n := by
  induction n with
  | zero => simp [selected, cubesBefore_zero]
  | succ n ih =>
    rw [selected_succ, cubesBefore_succ_opt, List.length_append, ih]
    by_cases h : grid[n]? = some true <;> simp [h]

/-- The `n`-th selected position `p` is an occupied position below the bound
that has exactly `n` occupied positions before it. -/
theorem selected_getElem? (grid : List Bool) (N n p : Nat)
    (h : (selected grid N)[n]? = some p) :
    p < N ∧ grid[p]? = some true ∧ cubesBefore grid p = n := by
  induction N with
  | zero => simp [selected] at h
  | succ N ih =>
    rw [selected_succ] at h
    by_cases hn : n < (selected grid N).length
    · rw [List.getElem?_append_left hn] at h
      have := ih h
      exact ⟨by omega, this.2.1, this.2.2⟩
    · rw [List.getElem?_append_right (by omega)] at h
      by_cases hg : grid[N]? = some true
      · simp only [hg, if_true] at h
        have hlen := (List.getElem?_eq_some.mp h).1
        simp only [List.length_singleton] at hlen
        have hz : n - (selected grid N).length = 0 := by omega
        rw [hz] at h
        simp only [List.getElem?_cons_zero, Option.some.injEq] at h
        subst h
        refine ⟨Nat.lt_succ_self _, hg, ?_⟩
        rw [← selected_length]
        omega
      · simp [hg] at h

/-- Conversely, an occupied position is the selected position whose rank is
the number of occupied positions before it. -/
theorem selected_of_true (grid : List Bool) (N p : Nat) (hp : p < N)
    (hg : grid[p]? = some true) :
    (selected grid N)[cubesBefore grid p]? = some p := by
  induction N with
  | zero => omega
  | succ N ih =>
    rw [selected_succ]
    rcases Nat.lt_succ_iff_lt_or_eq.mp hp with h | h
    · have hlt : cubesBefore grid p < (selected grid N).length := by
        rw [selected_length]; exact cubesBefore_lt_of_true grid p N h hg
      rw [List.getElem?_append_left hlt]
      exact ih h
    · subst h
      rw [List.getElem?_append_right (by rw [selected_length])]
      simp [hg, selected_length]

/-! ## The last writer of a slot -/

theorem lastWriter_some (grid visible : List Bool) (m c p : Nat)
    (h : lastWriter grid visible m c = some p) :
    p < m ∧ visible[p]? = some true ∧ cubesBefore grid p = c ∧
      ∀ q, p < q → q < m → visible[q]? = some true → cubesBefore grid q ≠ c := by
  induction m with
  | zero => simp [lastWriter] at h
  | succ m ih =>
    simp only [lastWriter] at h
    by_cases hc : visible[m]? = some true ∧ cubesBefore grid m = c
    · rw [if_pos hc] at h
      have e : m = p := Option.some.inj h
      subst e
      exact ⟨Nat.lt_succ_self _, hc.1, hc.2, fun q h1 h2 => by omega⟩
    · rw [if_neg hc] at h
      obtain ⟨h1, h2, h3, h4⟩ := ih h
      refine ⟨by omega, h2, h3, ?_⟩
      intro q hq1 hq2 hqv
      rcases Nat.lt_succ_iff_lt_or_eq.mp hq2 with h5 | h5
      · exact h4 q hq1 h5 hqv
      · subst h5
        exact fun e => hc ⟨hqv, e⟩

theorem lastWriter_none (grid visible : List Bool) (m c : Nat)
    (h : lastWriter grid visible m c = none) :
    ∀ p, p < m → visible[p]? = some true → cubesBefore grid p ≠ c := by
  induction m with
  | zero => intro p hp; omega
  | succ m ih =>
    simp only [lastWriter] at h
    by_cases hc : visible[m]? = some true ∧ cubesBefore grid m = c
    · rw [if_pos hc] at h
      exact absurd h (by simp)
    · rw [if_neg hc] at h
      intro p hp hv
      rcases Nat.lt_succ_iff_lt_or_eq.mp hp with h5 | h5
      · exact ih h p h5 hv
      · subst h5
        exact fun e => hc ⟨hv, e⟩

theorem lastWriter_eq_some (grid visible : List Bool) (m c p : Nat)
    (hp : p < m) (hv : visible[p]? = some true) (hc : cubesBefore grid p = c)
    (hmax : ∀ q, p < q → q < m → visible[q]? = some true → cubesBefore grid q ≠ c) :
    lastWriter grid visible m c = some p := by
  cases h : lastWriter grid visible m c with
  | none => exact absurd hc (lastWriter_none grid visible m c h p hp hv)
  | some p' =>
    obtain ⟨h1, h2, h3, h4⟩ := lastWriter_some grid visible m c p' h
    rcases Nat.lt_trichotomy p p' with h5 | h5 | h5
    · exact absurd h3 (hmax p' h5 h1 h2)
    · rw [h5]
    · exact absurd hc (h4 p h5 hp hv)

theorem lastWriter_eq_none (grid visible : List Bool) (m c : Nat)
    (h : ∀ p, p < m → visible[p]? = some true → cubesBefore grid p ≠ c) :
    lastWriter grid visible m c = none := by
  cases h' : lastWriter grid visible m c with
  | none => rfl
  | some p =>
    obtain ⟨h1, h2, h3, _⟩ := lastWriter_some grid visible m c p h'
    exact absurd h3 (h p h1 h2)

/-! ## The whole fragments -/

theorem overlaps_ix_lt (W H D side p : Nat) (hs : side < 6) (hp : p < W * H * D) :
    overlaps_ix W H D side p < 6 * (W * H * D) := by
  unfold overlaps_ix
  have h1 : side * W * H * D = side * (W * H * D) := by ring
  have h2 : side * (W * H * D) ≤ 5 * (W * H * D) := Nat.mul_le_mul_right _ (by omega)
  omega

theorem side_ix_lt (c n side : Nat) (hc : c < n) (hs : side < 6) :
    side_ix c side < 6 * n := by
  unfold side_ix SQUARES_PER_CUBE
  omega

theorem side_ix_div_mod (ix : Nat) : side_ix (ix / 6) (ix % 6) = ix := by
  unfold side_ix SQUARES_PER_CUBE
  omega

theorem glass_inline_inv (W H D : Nat) (grid visible ov mask0 : List Bool) (s : State)
    (h : glass_inline W H D grid visible ov mask0 = Except.ok s) :
    GlassInv W H D grid visible ov mask0 (W * H * D) s := by
  unfold glass_inline at h
  rw [traverse_eq_flat] at h
  exact glassFlat_inv W H D grid visible ov mask0 _ s h

theorem surface_inline_eq_ok (W H D : Nat) (grid ov mask0 : List Bool) (s : State) :
    surface_inline W H D grid ov mask0 = Except.ok s ↔
      glass_inline W H D grid grid ov mask0 = Except.ok s := by
  unfold surface_inline glass_inline
  rw [traverse_eq_flat, traverse_eq_flat]
  exact surfaceFlat_eq_ok W H D grid ov _ _ s

theorem surface_inline_inv (W H D : Nat) (grid ov mask0 : List Bool) (s : State)
    (h : surface_inline W H D grid ov mask0 = Except.ok s) :
    GlassInv W H D grid grid ov mask0 (W * H * D) s :=
  glass_inline_inv W H D grid grid ov mask0 s ((surface_inline_eq_ok W H D grid ov mask0 s).mp h)

theorem glass_inline_total (W H D : Nat) (grid visible ov mask0 : List Bool)
    (hg : W * H * D ≤ grid.length) (hv : W * H * D ≤ visible.length)
    (hov : 6 * (W * H * D) ≤ ov.length)
    (hm : ∀ p, p < W * H * D → visible[p]? = some true →
      6 * (cubesBefore grid p + 1) ≤ mask0.length) :
    ∃ s, glass_inline W H D grid visible ov mask0 = Except.ok s := by
  unfold glass_inline
  rw [traverse_eq_flat]
  apply glassFlat_total W H D grid visible ov mask0 (W * H * D) hg hv
  intro p hp hpv side hs
  refine ⟨Nat.lt_of_lt_of_le (overlaps_ix_lt W H D side p hs hp) hov, ?_⟩
  exact Nat.lt_of_lt_of_le (side_ix_lt _ _ side (Nat.lt_succ_self _) hs) (hm p hp hpv)

theorem surface_inline_total (W H D : Nat) (grid ov mask0 : List Bool)
    (hg : W * H * D ≤ grid.length) (hov : 6 * (W * H * D) ≤ ov.length)
    (hm : 6 * cubesBefore grid (W * H * D) ≤ mask0.length) :
    ∃ s, surface_inline W H D grid ov mask0 = Except.ok s := by
  obtain ⟨s, hs⟩ := glass_inline_total W H D grid grid ov mask0 hg hg hov (by
    intro p hp hpv
    have := cubesBefore_lt_of_true grid p (W * H * D) hp hpv
    omega)
  exact ⟨s, (surface_inline_eq_ok W H D grid ov mask0 s).mpr hs⟩

/-- The `n`-th occupied position is the last (and only) writer of slot `n` when
the write gate is the occupancy grid. -/
theorem lastWriter_selected (grid : List Bool) (N n p : Nat)
    (h : (selected grid N)[n]? = some p) : lastWriter grid grid N n = some p := by
  obtain ⟨h1, h2, h3⟩ := selected_getElem? grid N n p h
  apply lastWriter_eq_some grid grid N n p h1 h2 h3
  intro q hpq _ _ e
  have := cubesBefore_lt_of_true grid p q hpq h2
  omega

/-- No occupied position writes a slot at or beyond the final count. -/
theorem lastWriter_beyond (grid : List Bool) (N c : Nat) (hc : cubesBefore grid N ≤ c) :
    lastWriter grid grid N c = none := by
  apply lastWriter_eq_none
  intro p hp hv e
  have := cubesBefore_lt_of_true grid p N hp hv
  omega

/-- What a successful run of `surface_inline.c` leaves in the slot of the
`n`-th occupied position. -/
theorem surface_slot (W H D : Nat) (grid ov mask0 : List Bool) (s : State)
    (h : surface_inline W H D grid ov mask0 = Except.ok s) (n p : Nat)
    (hsel : (selected grid (W * H * D))[n]? = some p) (side : Nat) (hs : side < 6) :
    overlaps_ix W H D side p < ov.length ∧ side_ix n side < s.nonoverlap_mask.length ∧
      s.nonoverlap_mask[side_ix n side]? = ov[overlaps_ix W H D side p]? := by
  have I := surface_inline_inv W H D grid ov mask0 s h
  obtain ⟨h1, h2, h3⟩ := selected_getElem? grid (W * H * D) n p hsel
  have hst := I.stores p h1 h2 side hs
  rw [h3] at hst
  refine ⟨hst.1, by rw [I.length_eq]; exact hst.2, ?_⟩
  rw [I.content n side hs, lastWriter_selected grid (W * H * D) n p hsel]

theorem mem_writesOf (grid visible : List Bool) (m ix : Nat) :
    ix ∈ writesOf grid visible m ↔
      ∃ p, p < m ∧ visible[p]? = some true ∧
        ∃ side, side < 6 ∧ ix = side_ix (cubesBefore grid p) side := by
  unfold writesOf
  simp only [List.mem_flatMap, List.mem_range]
  constructor
  · rintro ⟨p, hp, h⟩
    by_cases hv : visible[p]? = some true
    · rw [if_pos hv] at h
      simp only [List.mem_map, List.mem_range] at h
      obtain ⟨side, hs, e⟩ := h
      exact ⟨p, hp, hv, side, hs, e.symm⟩
    · rw [if_neg hv] at h
      simp at h
  · rintro ⟨p, hp, hv, side, hs, e⟩
    refine ⟨p, hp, ?_⟩
    rw [if_pos hv]
    simp only [List.mem_map, List.mem_range]
    exact ⟨side, hs, e.symm⟩

/-! ## The occupancy-gated generator: values, count and write bounds -/

/-- Claim C1. Occupancy-gated generator (`surface_inline.c`): on a grid of
length `W*H*D`, an overlap table of length `6*W*H*D` and a starting mask with
room for six entries per occupied position, the run returns, and if `p` is the
`n`-th (0-based) position in increasing order with `grid[p]` true, then for
every `side < 6` the final `nonoverlap_mask[n*6 + side]` holds the entry
`overlaps_grid[side*W*H*D + p]`. -/
theorem surface_inline_nth_selected (W H D : Nat) (grid ov mask0 : List Bool)
    (hg : grid.length = W * H * D) (hov : ov.length = 6 * (W * H * D))
    (hm : 6 * (selected grid (W * H * D)).length ≤ mask0.length) :
    ∃ s, surface_inline W H D grid ov mask0 = Except.ok s ∧
      ∀ n p, (selected grid (W * H * D))[n]? = some p → ∀ side, side < 6 →
        ∃ v, ov[side * W * H * D + p]? = some v ∧
          s.nonoverlap_mask[n * 6 + side]? = some v := by
  obtain ⟨s, hs⟩ := surface_inline_total W H D grid ov mask0 (by omega) (by omega)
    (by rw [← selected_length]; exact hm)
  refine ⟨s, hs, ?_⟩
  intro n p hsel side hside
  obtain ⟨h1, _, h3⟩ := surface_slot W H D grid ov mask0 s hs n p hsel side hside
  have h4 : ov[overlaps_ix W H D side p]? = some (ov.get ⟨overlaps_ix W H D side p, h1⟩) :=
    List.getElem?_eq_getElem h1
  exact ⟨ov.get ⟨overlaps_ix W H D side p, h1⟩, h4, h3.trans h4⟩

/-- Claim C1 on a concrete input: a 2×1×2 grid whose two middle cells are occupied. -/
theorem surface_inline_nth_selected_witness :
    ∃ s, surface_inline 2 1 2 [false, true, true, false]
        [true, false, true, false, false, true, false, true, true, true, false, false,
         false, false, true, true, true, false, false, true, false, true, true, false]
        (List.replicate 12 false) = Except.ok s ∧
      ∀ n p, (selected [false, true, true, false] (2 * 1 * 2))[n]? = some p →
        ∀ side, side < 6 →
        ∃ v, ([true, false, true, false, false, true, false, true, true, true, false, false,
               false, false, true, true, true, false, false, true, false, true, true,
               false] : List Bool)[side * 2 * 1 * 2 + p]? = some v ∧
          s.nonoverlap_mask[n * 6 + side]? = some v :=
  surface_inline_nth_selected 2 1 2 _ _ _ (by decide) (by decide) (by decide)

/-- Claim C2. Occupancy-gated generator: whenever the run returns, the final
value of `cube` is the number of positions `pos < W*H*D` with `grid[pos]`
true; and the run does return when the grid covers `W*H*D` positions, the
overlap table `6*W*H*D` entries and the mask six entries per such position. -/
theorem surface_inline_cube_count (W H D : Nat) (grid ov mask0 : List Bool) :
    (∀ s, surface_inline W H D grid ov mask0 = Except.ok s →
      s.cube = (selected grid (W * H * D)).length) ∧
    (W * H * D ≤ grid.length → 6 * (W * H * D) ≤ ov.length →
      6 * (selected grid (W * H * D)).length ≤ mask0.length →
      ∃ s, surface_inline W H D grid ov mask0 = Except.ok s) := by
  constructor
  · intro s h
    rw [selected_length]
    exact (surface_inline_inv W H D grid ov mask0 s h).cube_eq
  · intro hg hov hm
    exact surface_inline_total W H D grid ov mask0 hg hov
      (by rw [← selected_length]; exact hm)

/-- Claim C2 on a concrete input: three cells, two of them occupied. -/
theorem surface_inline_cube_count_witness :
    ∃ s, surface_inline 3 1 1 [true, false, true]
        (List.replicate 18 true) (List.replicate 12 false) = Except.ok s ∧ s.cube = 2 :=
  have h := surface_inline_cube_count 3 1 1 [true, false, true]
    (List.replicate 18 true) (List.replicate 12 false)
  Exists.elim (h.2 (by decide) (by decide) (by decide)) fun s hs => ⟨s, hs, h.1 s hs⟩

/-- Claim C3, counterexample. One occupied cell whose face 0 is overlapped
(`overlaps_grid[0]` true): the run leaves `nonoverlap_mask[0]` true, so the
mask entry is not "true exactly when the overlap entry is false". -/
theorem surface_inline_mask_not_negated :
    ¬ (∀ s, surface_inline 1 1 1 [true] [true, false, false, false, false, false]
          [false, false, false, false, false, false] = Except.ok s →
        ∀ n p, (selected [true] (1 * 1 * 1))[n]? = some p → ∀ side, side < 6 →
          (s.nonoverlap_mask[n * 6 + side]? = some true ↔
            ([true, false, false, false, false, false] : List Bool)[side * 1 * 1 * 1 + p]? =
              some false)) := by
  intro h
  have h1 := h ⟨1, [true, false, false, false, false, false], [0, 1, 2, 3, 4, 5]⟩ rfl
    0 0 rfl 0 (by decide)
  revert h1
  decide

/-- Claim C3, amended. For every emitted cube `n` of the occupancy-gated
generator, located at grid position `p`, and every `side < 6`, the final
`nonoverlap_mask[n*6 + side]` is true exactly when `overlaps_grid[side*W*H*D + p]`
is true: the overlap bit is copied, not negated. -/
theorem surface_inline_mask_true_iff (W H D : Nat) (grid ov mask0 : List Bool)
    (hg : grid.length = W * H * D) (hov : ov.length = 6 * (W * H * D))
    (hm : 6 * (selected grid (W * H * D)).length ≤ mask0.length) :
    ∃ s, surface_inline W H D grid ov mask0 = Except.ok s ∧
      ∀ n p, (selected grid (W * H * D))[n]? = some p → ∀ side, side < 6 →
        (s.nonoverlap_mask[n * 6 + side]? = some true ↔
          ov[side * W * H * D + p]? = some true) := by
  obtain ⟨s, hs⟩ := surface_inline_total W H D grid ov mask0 (by omega) (by omega)
    (by rw [← selected_length]; exact hm)
  refine ⟨s, hs, ?_⟩
  intro n p hsel side hside
  obtain ⟨_, _, h3⟩ := surface_slot W H D grid ov mask0 s hs n p hsel side hside
  have h4 : s.nonoverlap_mask[n * 6 + side]? = ov[side * W * H * D + p]? := h3
  rw [h4]

/-- Claim C3 as amended, on the input of its counterexample. -/
theorem surface_inline_mask_true_iff_witness :
    ∃ s, surface_inline 1 1 1 [true] [true, false, false, false, false, false]
        [false, false, false, false, false, false] = Except.ok s ∧
      ∀ n p, (selected [true] (1 * 1 * 1))[n]? = some p → ∀ side, side < 6 →
        (s.nonoverlap_mask[n * 6 + side]? = some true ↔
          ([true, false, false, false, false, false] : List Bool)[side * 1 * 1 * 1 + p]? =
            some true) :=
  surface_inline_mask_true_iff 1 1 1 _ _ _ (by decide) (by decide) (by decide)

/-- Claim C4. Occupancy-gated generator: whenever the run returns, every index
at which `nonoverlap_mask` was stored is below `6 * cube` for the final value
of `cube`; and with a mask of exactly six entries per occupied position the
run returns, that is, no store is out of bounds, and the mask has exactly
`6 * cube` entries. -/
theorem surface_inline_writes_below_count (W H D : Nat) (grid ov mask0 : List Bool) :
    (∀ s, surface_inline W H D grid ov mask0 = Except.ok s →
      ∀ ix, ix ∈ s.written → ix < 6 * s.cube) ∧
    (W * H * D ≤ grid.length → 6 * (W * H * D) ≤ ov.length →
      mask0.length = 6 * (selected grid (W * H * D)).length →
      ∃ s, surface_inline W H D grid ov mask0 = Except.ok s ∧
        s.nonoverlap_mask.length = 6 * s.cube) := by
  constructor
  · intro s h ix hix
    have I := surface_inline_inv W H D grid ov mask0 s h
    rw [I.written_eq, mem_writesOf] at hix
    obtain ⟨p, hp, hv, side, hs, rfl⟩ := hix
    rw [I.cube_eq]
    exact side_ix_lt _ _ side (cubesBefore_lt_of_true grid p _ hp hv) hs
  · intro hg hov hm
    obtain ⟨s, hs⟩ := surface_inline_total W H D grid ov mask0 hg hov
      (by rw [← selected_length, hm])
    have I := surface_inline_inv W H D grid ov mask0 s hs
    exact ⟨s, hs, by rw [I.length_eq, I.cube_eq, hm, selected_length]⟩

/-- Claim C4 on a concrete input: three cells, two of them occupied, and a mask
of exactly twelve entries. -/
theorem surface_inline_writes_below_count_witness :
    ∃ s, surface_inline 3 1 1 [true, false, true]
        (List.replicate 18 true) (List.replicate 12 false) = Except.ok s ∧
      s.nonoverlap_mask.length = 6 * s.cube ∧ ∀ ix, ix ∈ s.written → ix < 6 * s.cube :=
  have h := surface_inline_writes_below_count 3 1 1 [true, false, true]
    (List.replicate 18 true) (List.replicate 12 false)
  Exists.elim (h.2 (by decide) (by decide) (by decide)) fun s hs =>
    ⟨s, hs.1, hs.2, h.1 s hs.1⟩

/-! ## Faults: which access can fail -/

theorem bind_eq_error {ε α β : Type} (x : Except ε α) (f : α → Except ε β) (e : ε) :
    (x >>= f) = Except.error e ↔
      x = Except.error e ∨ ∃ a, x = Except.ok a ∧ f a = Except.error e := by
  cases x with
  | error e' => simp [Bind.bind, Except.bind]
  | ok a => simp [Bind.bind, Except.bind]

theorem foldlM_range_error {ε σ : Type} (f : σ → Nat → Except ε σ) (s : σ) (e : ε) :
    ∀ n, (List.range n).foldlM f s = Except.error e →
      ∃ m t, m < n ∧ (List.range m).foldlM f s = Except.ok t ∧ f t m = Except.error e := by
  intro n
  induction n with
  | zero =>
    intro h
    simp [pure, Except.pure] at h
  | succ n ih =>
    intro h
    rw [foldlM_range_succ, bind_eq_error] at h
    rcases h with h | ⟨t, ht, hf⟩
    · obtain ⟨m, t, hm, h1, h2⟩ := ih h
      exact ⟨m, t, by omega, h1, h2⟩
    · exact ⟨n, t, Nat.lt_succ_self n, ht, hf⟩

theorem pos_lt (W H D i j k : Nat) (hi : i < W) (hj : j < H) (hk : k < D) :
    pos H D i j k < W * H * D := by
  unfold pos
  have h1 : (j + 1) * D ≤ H * D := Nat.mul_le_mul_right D hj
  have h2 : (i + 1) * (H * D) ≤ W * (H * D) := Nat.mul_le_mul_right (H * D) hi
  rw [Nat.succ_mul] at h1 h2
  rw [Nat.mul_assoc i H D, Nat.mul_assoc W H D]
  omega

theorem sideBody_error (W H D : Nat) (ov : List Bool) (p : Nat) (s : State) (side : Nat)
    (e : Fault) (hov : overlaps_ix W H D side p < ov.length)
    (h : sideBody W H D ov p s side = Except.error e) : ∃ ix, e = Fault.maskWrite ix := by
  unfold sideBody at h
  rw [bind_eq_error] at h
  rcases h with h | ⟨v, _, h⟩
  · unfold readAt at h
    rw [List.getElem?_eq_getElem hov] at h
    simp at h
  · rw [bind_eq_error] at h
    rcases h with h | ⟨m, _, h⟩
    · unfold writeAt at h
      by_cases hlt : side_ix s.cube side < s.nonoverlap_mask.length
      · rw [if_pos hlt] at h
        simp at h
      · rw [if_neg hlt] at h
        exact ⟨_, (Except.error.inj h).symm⟩
    · simp [pure, Except.pure] at h

theorem sideLoop_error (W H D : Nat) (ov : List Bool) (p : Nat) (s : State) (e : Fault)
    (hov : ∀ side, side < 6 → overlaps_ix W H D side p < ov.length)
    (h : sideLoop W H D ov p s = Except.error e) : ∃ ix, e = Fault.maskWrite ix := by
  unfold sideLoop at h
  obtain ⟨side, t, hs, _, h2⟩ := foldlM_range_error _ s e _ h
  exact sideBody_error W H D ov p t side e (hov side hs) h2

theorem glassCell_error (W H D : Nat) (grid visible ov : List Bool) (s : State) (p : Nat)
    (e : Fault) (hg : p < grid.length) (hv : p < visible.length)
    (hov : ∀ side, side < 6 → overlaps_ix W H D side p < ov.length)
    (h : glassCell W H D grid visible ov s p = Except.error e) :
    ∃ ix, e = Fault.maskWrite ix := by
  unfold glassCell at h
  rw [bind_eq_error] at h
  rcases h with h | ⟨v, _, h⟩
  · unfold readAt at h
    rw [List.getElem?_eq_getElem hv] at h
    simp at h
  · rw [bind_eq_error] at h
    rcases h with h | ⟨s1, _, h⟩
    · cases v
      · simp [pure, Except.pure] at h
      · simp only [if_true] at h
        exact sideLoop_error W H D ov p s e hov h
    · rw [bind_eq_error] at h
      rcases h with h | ⟨g, _, h⟩
      · unfold readAt at h
        rw [List.getElem?_eq_getElem hg] at h
        simp at h
      · cases g <;> simp [pure, Except.pure] at h

theorem surfaceCell_error (W H D : Nat) (grid ov : List Bool) (s : State) (p : Nat)
    (e : Fault) (hg : p < grid.length)
    (hov : ∀ side, side < 6 → overlaps_ix W H D side p < ov.length)
    (h : surfaceCell W H D grid ov s p = Except.error e) :
    ∃ ix, e = Fault.maskWrite ix := by
  unfold surfaceCell at h
  rw [bind_eq_error] at h
  rcases h with h | ⟨g, _, h⟩
  · unfold readAt at h
    rw [List.getElem?_eq_getElem hg] at h
    simp at h
  · cases g
    · simp [pure, Except.pure] at h
    · simp only [if_true] at h
      rw [bind_eq_error] at h
      rcases h with h | ⟨s1, _, h⟩
      · exact sideLoop_error W H D ov p s e hov h
      · simp [pure, Except.pure] at h

/-- Claim C5. In both variants, at every loop iteration (`i < W`, `j < H`,
`k < D`, `side < 6`) the position `pos = i*H*D + j*D + k` is below `W*H*D` and
the index `side*W*H*D + pos` read in `overlaps_grid` is below `6*W*H*D`; so
with `grid` (and `visible`) of length `W*H*D` and an overlap table of length
`6*W*H*D` no read is out of bounds: a run can only stop at a store into
`nonoverlap_mask`. -/
theorem reads_in_bounds (W H D : Nat) :
    (∀ i j k, i < W → j < H → k < D →
      pos H D i j k < W * H * D ∧
        ∀ side, side < 6 → side * W * H * D + pos H D i j k < 6 * W * H * D) ∧
    (∀ grid ov mask0 e, grid.length = W * H * D → ov.length = 6 * W * H * D →
      surface_inline W H D grid ov mask0 = Except.error e → ∃ ix, e = Fault.maskWrite ix) ∧
    (∀ grid visible ov mask0 e, grid.length = W * H * D → visible.length = W * H * D →
      ov.length = 6 * W * H * D →
      glass_inline W H D grid visible ov mask0 = Except.error e →
      ∃ ix, e = Fault.maskWrite ix) := by
  have e6 : 6 * W * H * D = 6 * (W * H * D) := by ring
  refine ⟨?_, ?_, ?_⟩
  · intro i j k hi hj hk
    have hp := pos_lt W H D i j k hi hj hk
    refine ⟨hp, ?_⟩
    intro side hs
    rw [e6]
    exact overlaps_ix_lt W H D side _ hs hp
  · intro grid ov mask0 e hg hov h
    unfold surface_inline at h
    rw [traverse_eq_flat] at h
    obtain ⟨p, t, hp, _, h2⟩ := foldlM_range_error _ _ e _ h
    apply surfaceCell_error W H D grid ov t p e (by omega) _ h2
    intro side hs
    have := overlaps_ix_lt W H D side p hs hp
    omega
  · intro grid visible ov mask0 e hg hv hov h
    unfold glass_inline at h
    rw [traverse_eq_flat] at h
    obtain ⟨p, t, hp, _, h2⟩ := foldlM_range_error _ _ e _ h
    apply glassCell_error W H D grid visible ov t p e (by omega) (by omega) _ h2
    intro side hs
    have := overlaps_ix_lt W H D side p hs hp
    omega

/-- Claim C5 on concrete inputs: the index bounds in a 2×3×4 grid, and a run that
stops, on an empty mask, at its first store. -/
theorem reads_in_bounds_witness :
    (pos 3 4 1 2 3 < 2 * 3 * 4 ∧ 5 * 2 * 3 * 4 + pos 3 4 1 2 3 < 6 * 2 * 3 * 4) ∧
    surface_inline 1 1 1 [true] [true, false, false, false, false, false] [] =
      Except.error (Fault.maskWrite 0) ∧
    (∃ ix, Fault.maskWrite 0 = Fault.maskWrite ix) :=
  have h := reads_in_bounds 2 3 4
  have h1 := h.1 1 2 3 (by decide) (by decide) (by decide)
  ⟨⟨h1.1, h1.2 5 (by decide)⟩, rfl,
    (reads_in_bounds 1 1 1).2.1 [true] [true, false, false, false, false, false] [] _
      rfl rfl rfl⟩

/-! ## The decoupled-selection generator -/

/-- Claim C6, counterexample. One cell that is visible but not occupied: the
six stores go to the indices `0..5` while the final `cube` is `0`, so a stored
index is not below `6 * cube`. -/
theorem glass_inline_write_at_count :
    ¬ (∀ s, glass_inline 1 1 1 [false] [true] [true, false, false, false, false, false]
          [false, false, false, false, false, false] = Except.ok s →
        ∀ ix, ix ∈ s.written → ix < 6 * s.cube) := by
  intro h
  have h1 := h ⟨0, [true, false, false, false, false, false], [0, 1, 2, 3, 4, 5]⟩ rfl
    0 (by decide)
  revert h1
  decide

/-- Claim C6, amended. Decoupled-selection generator (`glass_inline.c`):
whenever the run returns, every index at which `nonoverlap_mask` was stored is
below `6 * (cube + 1)` for the final value of `cube`, and below `6 * cube` when
every visible position is occupied; the run returns when `grid` and `visible`
cover `W*H*D` positions, the overlap table `6*W*H*D` entries and the mask one
slot more than the number of occupied positions. -/
theorem glass_inline_writes_bound (W H D : Nat) (grid visible ov mask0 : List Bool) :
    (∀ s, glass_inline W H D grid visible ov mask0 = Except.ok s →
      (∀ ix, ix ∈ s.written → ix < 6 * (s.cube + 1)) ∧
      ((∀ p, p < W * H * D → visible[p]? = some true → grid[p]? = some true) →
        ∀ ix, ix ∈ s.written → ix < 6 * s.cube)) ∧
    (W * H * D ≤ grid.length → W * H * D ≤ visible.length →
      6 * (W * H * D) ≤ ov.length →
      6 * ((selected grid (W * H * D)).length + 1) ≤ mask0.length →
      ∃ s, glass_inline W H D grid visible ov mask0 = Except.ok s) := by
  constructor
  · intro s h
    have I := glass_inline_inv W H D grid visible ov mask0 s h
    constructor
    · intro ix hix
      rw [I.written_eq, mem_writesOf] at hix
      obtain ⟨p, hp, _, side, hs, rfl⟩ := hix
      rw [I.cube_eq]
      exact side_ix_lt _ _ side
        (Nat.lt_succ_of_le (cubesBefore_mono grid p _ (Nat.le_of_lt hp))) hs
    · intro hsub ix hix
      rw [I.written_eq, mem_writesOf] at hix
      obtain ⟨p, hp, hv, side, hs, rfl⟩ := hix
      rw [I.cube_eq]
      exact side_ix_lt _ _ side (cubesBefore_lt_of_true grid p _ hp (hsub p hp hv)) hs
  · intro hg hv hov hm
    apply glass_inline_total W H D grid visible ov mask0 hg hv hov
    intro p hp _
    have := cubesBefore_mono grid p _ (Nat.le_of_lt hp)
    rw [selected_length] at hm
    omega

/-- Claim C6 as amended, on a concrete input: the second cell is visible but not
occupied, and its stores go to the slot at the final count. -/
theorem glass_inline_writes_bound_witness :
    glass_inline 2 1 1 [true, false] [true, true]
        [true, true, true, true, true, true, true, true, true, true, true, true]
        [false, false, false, false, false, false, false, false, false, false, false, false] =
      Except.ok ⟨1, [true, true, true, true, true, true, true, true, true, true, true, true],
        [0, 1, 2, 3, 4, 5, 6, 7, 8, 9, 10, 11]⟩ ∧
    ∀ ix, ix ∈ [0, 1, 2, 3, 4, 5, 6, 7, 8, 9, 10, 11] → ix < 6 * (1 + 1) :=
  ⟨rfl, ((glass_inline_writes_bound 2 1 1 [true, false] [true, true]
    [true, true, true, true, true, true, true, true, true, true, true, true]
    [false, false, false, false, false, false, false, false, false, false, false, false]).1
      ⟨1, [true, true, true, true, true, true, true, true, true, true, true, true],
        [0, 1, 2, 3, 4, 5, 6, 7, 8, 9, 10, 11]⟩ rfl).1⟩

/-- Claim C7. Decoupled-selection generator (`glass_inline.c`): whenever the
run returns, the stores are exactly those of the visible positions, each at
the six indices of the slot `c(p)`, the number of occupied positions before
`p`; so the final `nonoverlap_mask[c*6 + side]` is
`overlaps_grid[side*W*H*D + p]` for the largest visible `p` with `c(p) = c`, and
its starting value when there is no such `p`.  The run returns when the arrays
are long enough.  On the 2-cell grid `grid = [false, true]`,
`visible = [true, false]` slot 0 ends with the six overlap entries of cell 0,
the only stores are the six of cell 0, and the final counter is 1. -/
theorem glass_inline_decoupled (W H D : Nat) (grid visible ov mask0 : List Bool) :
    (∀ s, glass_inline W H D grid visible ov mask0 = Except.ok s →
      s.written = writesOf grid visible (W * H * D) ∧
      ∀ c side, side < 6 →
        (∀ p, p < W * H * D → visible[p]? = some true → cubesBefore grid p = c →
          (∀ q, p < q → q < W * H * D → visible[q]? = some true →
            cubesBefore grid q ≠ c) →
          s.nonoverlap_mask[c * 6 + side]? = ov[side * W * H * D + p]?) ∧
        ((∀ p, p < W * H * D → visible[p]? = some true → cubesBefore grid p ≠ c) →
          s.nonoverlap_mask[c * 6 + side]? = mask0[c * 6 + side]?)) ∧
    (W * H * D ≤ grid.length → W * H * D ≤ visible.length →
      6 * (W * H * D) ≤ ov.length →
      (∀ p, p < W * H * D → visible[p]? = some true →
        6 * (cubesBefore grid p + 1) ≤ mask0.length) →
      ∃ s, glass_inline W H D grid visible ov mask0 = Except.ok s) ∧
    (∀ a0 a1 a2 a3 a4 a5 a6 a7 a8 a9 a10 a11 m0 m1 m2 m3 m4 m5 : Bool,
      glass_inline 2 1 1 [false, true] [true, false]
          [a0, a1, a2, a3, a4, a5, a6, a7, a8, a9, a10, a11] [m0, m1, m2, m3, m4, m5] =
        Except.ok ⟨1, [a0, a2, a4, a6, a8, a10], [0, 1, 2, 3, 4, 5]⟩) := by
  refine ⟨?_, ?_, ?_⟩
  · intro s h
    have I := glass_inline_inv W H D grid visible ov mask0 s h
    refine ⟨I.written_eq, ?_⟩
    intro c side hs
    have hc := I.content c side hs
    constructor
    · intro p hp hv hcp hmax
      rw [lastWriter_eq_some grid visible (W * H * D) c p hp hv hcp hmax] at hc
      exact hc
    · intro hnone
      rw [lastWriter_eq_none grid visible (W * H * D) c hnone] at hc
      exact hc
  · intro hg hv hov hm
    exact glass_inline_total W H D grid visible ov mask0 hg hv hov hm
  · intro a0 a1 a2 a3 a4 a5 a6 a7 a8 a9 a10 a11 m0 m1 m2 m3 m4 m5
    rfl

/-- Claim C7 on the 2-cell grid of the spec with a concrete overlap table. -/
theorem glass_inline_decoupled_witness :
    glass_inline 2 1 1 [false, true] [true, false]
        [true, false, false, true, true, false, false, true, true, false, false, true]
        [false, false, false, false, false, false] =
      Except.ok ⟨1, [true, false, true, false, true, false], [0, 1, 2, 3, 4, 5]⟩ :=
  (glass_inline_decoupled 2 1 1 [false, true] [true, false]
    [true, false, false, true, true, false, false, true, true, false, false, true]
    [false, false, false, false, false, false]).2.2
    true false false true true false false true true false false true
    false false false false false false

/-- Claim C8. Decoupled-selection generator: whenever the run returns, the
final value of `cube` is the number of positions `pos < W*H*D` with `grid[pos]`
true, hence the same for every choice of the `visible` array; the run returns
when the arrays are long enough. -/
theorem glass_inline_cube_count (W H D : Nat) (grid visible visible' ov mask0 : List Bool) :
    (∀ s, glass_inline W H D grid visible ov mask0 = Except.ok s →
      s.cube = (selected grid (W * H * D)).length) ∧
    (∀ s s', glass_inline W H D grid visible ov mask0 = Except.ok s →
      glass_inline W H D grid visible' ov mask0 = Except.ok s' → s.cube = s'.cube) ∧
    (W * H * D ≤ grid.length → W * H * D ≤ visible.length →
      6 * (W * H * D) ≤ ov.length →
      6 * ((selected grid (W * H * D)).length + 1) ≤ mask0.length →
      ∃ s, glass_inline W H D grid visible ov mask0 = Except.ok s) := by
  refine ⟨?_, ?_, ?_⟩
  · intro s h
    rw [selected_length]
    exact (glass_inline_inv W H D grid visible ov mask0 s h).cube_eq
  · intro s s' h h'
    rw [(glass_inline_inv W H D grid visible ov mask0 s h).cube_eq,
      (glass_inline_inv W H D grid visible' ov mask0 s' h').cube_eq]
  · intro hg hv hov hm
    apply glass_inline_total W H D grid visible ov mask0 hg hv hov
    intro p hp _
    have := cubesBefore_mono grid p _ (Nat.le_of_lt hp)
    rw [selected_length] at hm
    omega

/-- Claim C8 on a concrete input: two choices of `visible`, one final counter. -/
theorem glass_inline_cube_count_witness :
    glass_inline 2 1 1 [true, true] [true, false]
        [true, false, false, true, true, false, false, true, true, false, false, true]
        [false, false, false, false, false, false, false, false, false, false, false, false] =
      Except.ok ⟨2, [true, false, true, false, true, false,
        false, false, false, false, false, false], [0, 1, 2, 3, 4, 5]⟩ ∧
    glass_inline 2 1 1 [true, true] [false, true]
        [true, false, false, true, true, false, false, true, true, false, false, true]
        [false, false, false, false, false, false, false, false, false, false, false, false] =
      Except.ok ⟨2, [false, false, false, false, false, false,
        false, true, false, true, false, true], [6, 7, 8, 9, 10, 11]⟩ ∧
    (2 : Nat) = (selected [true, true] (2 * 1 * 1)).length :=
  ⟨rfl, rfl,
    (glass_inline_cube_count 2 1 1 [true, true] [true, false] [false, true]
      [true, false, false, true, true, false, false, true, true, false, false, true]
      [false, false, false, false, false, false, false, false, false, false, false,
        false]).1
      ⟨2, [true, false, true, false, true, false,
        false, false, false, false, false, false], [0, 1, 2, 3, 4, 5]⟩ rfl⟩

/-! ## Grids that are occupied everywhere or nowhere -/

theorem cubesBefore_all_true (grid : List Bool) (N : Nat)
    (hall : ∀ p, p < N → grid[p]? = some true) : ∀ m, m ≤ N → cubesBefore grid m = m := by
  intro m
  induction m with
  | zero => intro _; exact cubesBefore_zero grid
  | succ m ih =>
    intro hm
    rw [cubesBefore_succ grid m true (hall m (by omega)), ih (by omega)]
    simp

theorem length_ge_of_all_some (grid : List Bool) (N : Nat) (b : Bool)
    (hall : ∀ p, p < N → grid[p]? = some b) : N ≤ grid.length := by
  by_contra hlt
  have h1 := hall grid.length (by omega)
  rw [List.getElem?_eq_none (Nat.le_refl _)] at h1
  exact absurd h1 (by simp)

theorem surfaceCell_false (W H D : Nat) (grid ov : List Bool) (s : State) (p : Nat)
    (h : grid[p]? = some false) : surfaceCell W H D grid ov s p = Except.ok s := by
  unfold surfaceCell readAt
  rw [h]
  rfl

/-- Claim C9. Occupancy-gated generator on a grid that is true at every
position below `W*H*D`, with an overlap table of length `6*W*H*D` and a mask of
at least that length: the run returns, the final counter is `W*H*D`, and the
final `nonoverlap_mask[pos*6 + side]` holds `overlaps_grid[side*W*H*D + pos]`
for every `pos < W*H*D` and `side < 6`.  For `W=H=D=1` the six mask entries
are the six overlap entries; for `W=2, H=1, D=1` with side-0 block `[1,0]` and
all other blocks `[0,0]` the count is 2 and the mask is
`[1,0,0,0,0,0, 0,0,0,0,0,0]`. -/
theorem surface_inline_all_true (W H D : Nat) (grid ov mask0 : List Bool)
    (hall : ∀ p, p < W * H * D → grid[p]? = some true)
    (hov : ov.length = 6 * (W * H * D)) (hm : 6 * (W * H * D) ≤ mask0.length) :
    (∃ s, surface_inline W H D grid ov mask0 = Except.ok s ∧ s.cube = W * H * D ∧
      ∀ pos side, pos < W * H * D → side < 6 →
        ∃ v, ov[side * W * H * D + pos]? = some v ∧
          s.nonoverlap_mask[pos * 6 + side]? = some v) ∧
    (∀ a0 a1 a2 a3 a4 a5 m0 m1 m2 m3 m4 m5 : Bool,
      surface_inline 1 1 1 [true] [a0, a1, a2, a3, a4, a5] [m0, m1, m2, m3, m4, m5] =
        Except.ok ⟨1, [a0, a1, a2, a3, a4, a5], [0, 1, 2, 3, 4, 5]⟩) ∧
    (∀ m0 m1 m2 m3 m4 m5 m6 m7 m8 m9 m10 m11 : Bool,
      surface_inline 2 1 1 [true, true]
          [true, false, false, false, false, false, false, false, false, false, false, false]
          [m0, m1, m2, m3, m4, m5, m6, m7, m8, m9, m10, m11] =
        Except.ok ⟨2, [true, false, false, false, false, false,
            false, false, false, false, false, false],
          [0, 1, 2, 3, 4, 5, 6, 7, 8, 9, 10, 11]⟩) := by
  refine ⟨?_, ?_, ?_⟩
  · have hcb := cubesBefore_all_true grid (W * H * D) hall
    have hg := length_ge_of_all_some grid (W * H * D) true hall
    obtain ⟨s, hs⟩ := surface_inline_total W H D grid ov mask0 hg (by omega)
      (by rw [hcb _ (Nat.le_refl _)]; exact hm)
    have I := surface_inline_inv W H D grid ov mask0 s hs
    refine ⟨s, hs, by rw [I.cube_eq, hcb _ (Nat.le_refl _)], ?_⟩
    intro p side hp hside
    have hsel : (selected grid (W * H * D))[p]? = some p := by
      have := selected_of_true grid (W * H * D) p hp (hall p hp)
      rwa [hcb p (Nat.le_of_lt hp)] at this
    obtain ⟨h1, _, h3⟩ := surface_slot W H D grid ov mask0 s hs p p hsel side hside
    have h4 : ov[overlaps_ix W H D side p]? = some (ov.get ⟨overlaps_ix W H D side p, h1⟩) :=
      List.getElem?_eq_getElem h1
    exact ⟨ov.get ⟨overlaps_ix W H D side p, h1⟩, h4, h3.trans h4⟩
  · intro a0 a1 a2 a3 a4 a5 m0 m1 m2 m3 m4 m5
    rfl
  · intro m0 m1 m2 m3 m4 m5 m6 m7 m8 m9 m10 m11
    rfl

/-- Claim C9 on the 2-cell example of the spec, started on an arbitrary mask. -/
theorem surface_inline_all_true_witness :
    ∃ s, surface_inline 2 1 1 [true, true]
        [true, false, false, false, false, false, false, false, false, false, false, false]
        [false, true, false, true, false, true, false, true, false, true, false, true] =
          Except.ok s ∧ s.cube = 2 * 1 * 1 ∧
      ∀ pos side, pos < 2 * 1 * 1 → side < 6 →
        ∃ v, ([true, false, false, false, false, false, false, false, false, false, false,
            false] : List Bool)[side * 2 * 1 * 1 + pos]? = some v ∧
          s.nonoverlap_mask[pos * 6 + side]? = some v :=
  (surface_inline_all_true 2 1 1 [true, true]
    [true, false, false, false, false, false, false, false, false, false, false, false]
    [false, true, false, true, false, true, false, true, false, true, false, true]
    (by decide) (by decide) (by decide)).1

/-- Claim C10. Occupancy-gated generator on a grid that is false at every
position below `W*H*D`: the run returns with counter 0, the mask it was
started on, and no store made. -/
theorem surface_inline_all_false (W H D : Nat) (grid ov mask0 : List Bool)
    (hall : ∀ p, p < W * H * D → grid[p]? = some false) :
    surface_inline W H D grid ov mask0 = Except.ok ⟨0, mask0, []⟩ := by
  unfold surface_inline
  rw [traverse_eq_flat]
  have key : ∀ m, m ≤ W * H * D →
      (List.range m).foldlM (surfaceCell W H D grid ov)
        { cube := 0, nonoverlap_mask := mask0, written := [] } =
        Except.ok ⟨0, mask0, []⟩ := by
    intro m
    induction m with
    | zero => intro _; rfl
    | succ m ih =>
      intro hm
      rw [foldlM_range_succ, ih (by omega)]
      exact surfaceCell_false W H D grid ov _ m (hall m (by omega))
  exact key _ (Nat.le_refl _)

/-- Claim C10 on a concrete input: four empty cells. -/
theorem surface_inline_all_false_witness :
    surface_inline 2 1 2 [false, false, false, false] [true, true, false]
        [true, false, true] = Except.ok ⟨0, [true, false, true], []⟩ :=
  surface_inline_all_false 2 1 2 [false, false, false, false] [true, true, false]
    [true, false, true] (by decide)

/-! ## Dependence on the starting mask -/

/-- Two states with the same fields are the same state. -/
theorem State.eq_of_fields (s t : State) (h1 : s.cube = t.cube)
    (h2 : s.nonoverlap_mask = t.nonoverlap_mask) (h3 : s.written = t.written) : s = t := by
  cases s
  cases t
  simp only at h1 h2 h3
  rw [h1, h2, h3]

/-- Running `glass_inline.c` again on the mask it produced reproduces the
state it produced. -/
theorem glass_inline_rerun (W H D : Nat) (grid visible ov mask0 : List Bool) (s : State)
    (h : glass_inline W H D grid visible ov mask0 = Except.ok s) :
    glass_inline W H D grid visible ov s.nonoverlap_mask = Except.ok s := by
  have I := glass_inline_inv W H D grid visible ov mask0 s h
  obtain ⟨t, ht⟩ := glassFlat_total W H D grid visible ov s.nonoverlap_mask (W * H * D)
    I.grid_read I.visible_read (by rw [I.length_eq]; exact I.stores)
  have J := glassFlat_inv W H D grid visible ov s.nonoverlap_mask (W * H * D) t ht
  have e : t = s := by
    apply State.eq_of_fields
    · rw [J.cube_eq, I.cube_eq]
    · apply List.ext_getElem?
      intro ix
      rw [← side_ix_div_mod ix]
      have hs : ix % 6 < 6 := Nat.mod_lt _ (by decide)
      have hJ := J.content (ix / 6) (ix % 6) hs
      have hI := I.content (ix / 6) (ix % 6) hs
      cases hw : lastWriter grid visible (W * H * D) (ix / 6) with
      | none => rw [hw] at hJ; exact hJ
      | some p => rw [hw] at hJ hI; rw [hJ, hI]
    · rw [J.written_eq, I.written_eq]
  unfold glass_inline
  rw [traverse_eq_flat, ht, e]

/-- Claim C11. Occupancy-gated generator: the output does not depend on the
prior content of the mask.  For two starting masks and otherwise identical
inputs, whenever both runs return they return the same counter and final masks
that agree at every index below `6 * cube`; and both runs return when the grid
covers `W*H*D` positions, the overlap table `6*W*H*D` entries and each mask
six entries per occupied position. -/
theorem surface_inline_prior_mask_irrelevant (W H D : Nat)
    (grid ov mask0 mask0' : List Bool) :
    (∀ s s', surface_inline W H D grid ov mask0 = Except.ok s →
      surface_inline W H D grid ov mask0' = Except.ok s' →
      s.cube = s'.cube ∧
        ∀ ix, ix < 6 * s.cube → s.nonoverlap_mask[ix]? = s'.nonoverlap_mask[ix]?) ∧
    (W * H * D ≤ grid.length → 6 * (W * H * D) ≤ ov.length →
      6 * (selected grid (W * H * D)).length ≤ mask0.length →
      6 * (selected grid (W * H * D)).length ≤ mask0'.length →
      ∃ s s', surface_inline W H D grid ov mask0 = Except.ok s ∧
        surface_inline W H D grid ov mask0' = Except.ok s') := by
  constructor
  · intro s s' h h'
    have I := surface_inline_inv W H D grid ov mask0 s h
    have I' := surface_inline_inv W H D grid ov mask0' s' h'
    refine ⟨by rw [I.cube_eq, I'.cube_eq], ?_⟩
    intro ix hix
    rw [I.cube_eq, ← selected_length] at hix
    have hc : ix / 6 < (selected grid (W * H * D)).length := by omega
    have hs : ix % 6 < 6 := Nat.mod_lt _ (by decide)
    have hsel := List.getElem?_eq_getElem hc
    have h1 := (surface_slot W H D grid ov mask0 s h _ _ hsel _ hs).2.2
    have h2 := (surface_slot W H D grid ov mask0' s' h' _ _ hsel _ hs).2.2
    rw [side_ix_div_mod] at h1 h2
    rw [h1, h2]
  · intro hg hov hm hm'
    obtain ⟨s, hs⟩ := surface_inline_total W H D grid ov mask0 hg hov
      (by rw [← selected_length]; exact hm)
    obtain ⟨s', hs'⟩ := surface_inline_total W H D grid ov mask0' hg hov
      (by rw [← selected_length]; exact hm')
    exact ⟨s, s', hs, hs'⟩

/-- Claim C11 on a concrete input: two starting masks of different lengths and
contents. -/
theorem surface_inline_prior_mask_irrelevant_witness :
    surface_inline 2 1 1 [false, true]
        [true, false, false, true, true, false, false, true, true, false, false, true]
        [false, false, false, false, false, false, false] =
      Except.ok ⟨1, [false, true, false, true, false, true, false], [0, 1, 2, 3, 4, 5]⟩ ∧
    surface_inline 2 1 1 [false, true]
        [true, false, false, true, true, false, false, true, true, false, false, true]
        [true, true, true, true, true, true, true, true] =
      Except.ok ⟨1, [false, true, false, true, false, true, true, true],
        [0, 1, 2, 3, 4, 5]⟩ ∧
    ((1 : Nat) = 1 ∧ ∀ ix, ix < 6 * 1 →
      ([false, true, false, true, false, true, false] : List Bool)[ix]? =
        ([false, true, false, true, false, true, true, true] : List Bool)[ix]?) :=
  ⟨rfl, rfl,
    (surface_inline_prior_mask_irrelevant 2 1 1 [false, true]
      [true, false, false, true, true, false, false, true, true, false, false, true]
      [false, false, false, false, false, false, false]
      [true, true, true, true, true, true, true, true]).1
      ⟨1, [false, true, false, true, false, true, false], [0, 1, 2, 3, 4, 5]⟩
      ⟨1, [false, true, false, true, false, true, true, true], [0, 1, 2, 3, 4, 5]⟩
      rfl rfl⟩

/-- Claim C12. Idempotence, in both variants: when a run returns, a second run
on the same `W`, `H`, `D`, grid (and `visible`) and overlap table, started
from the mask left by the first run, returns as well, with the same counter
and the same mask (and the same stores) as the first run. -/
theorem rerun_idempotent (W H D : Nat) (grid visible ov mask0 : List Bool) :
    (∀ s, surface_inline W H D grid ov mask0 = Except.ok s →
      surface_inline W H D grid ov s.nonoverlap_mask = Except.ok s) ∧
    (∀ s, glass_inline W H D grid visible ov mask0 = Except.ok s →
      glass_inline W H D grid visible ov s.nonoverlap_mask = Except.ok s) := by
  constructor
  · intro s h
    rw [surface_inline_eq_ok] at h ⊢
    exact glass_inline_rerun W H D grid grid ov mask0 s h
  · intro s h
    exact glass_inline_rerun W H D grid visible ov mask0 s h

/-- Claim C12 on concrete inputs: the second run of each variant, started on the
mask left by the first. -/
theorem rerun_idempotent_witness :
    surface_inline 2 1 1 [true, true]
        [true, false, false, true, true, false, false, true, true, false, false, true]
        [true, false, true, false, true, false, false, true, false, true, false, true] =
      Except.ok ⟨2, [true, false, true, false, true, false, false, true, false, true, false,
        true], [0, 1, 2, 3, 4, 5, 6, 7, 8, 9, 10, 11]⟩ ∧
    glass_inline 2 1 1 [false, true] [true, true]
        [true, false, false, true, true, false, false, true, true, false, false, true]
        [false, true, false, true, false, true] =
      Except.ok ⟨1, [false, true, false, true, false, true],
        [0, 1, 2, 3, 4, 5, 0, 1, 2, 3, 4, 5]⟩ :=
  have h := rerun_idempotent 2 1 1 [true, true] [true, true]
    [true, false, false, true, true, false, false, true, true, false, false, true]
    (List.replicate 12 false)
  have h' := rerun_idempotent 2 1 1 [false, true] [true, true]
    [true, false, false, true, true, false, false, true, true, false, false, true]
    (List.replicate 6 false)
  ⟨h.1 ⟨2, [true, false, true, false, true, false, false, true, false, true, false, true],
      [0, 1, 2, 3, 4, 5, 6, 7, 8, 9, 10, 11]⟩ rfl,
    h'.2 ⟨1, [false, true, false, true, false, true], [0, 1, 2, 3, 4, 5, 0, 1, 2, 3, 4, 5]⟩
      rfl⟩

/-! ## The traversal order -/

theorem range_mul_flatMap (n m : Nat) :
    List.range (n * m) =
      (List.range n).flatMap (fun i => (List.range m).map (fun j => i * m + j)) := by
  induction n with
  | zero => simp
  | succ n ih =>
    rw [Nat.succ_mul, List.range_add, ih, List.range_succ, List.flatMap_append]
    simp

theorem visitOrder_eq_range (W H D : Nat) : visitOrder W H D = List.range (W * H * D) := by
  unfold visitOrder
  rw [range_mul_flatMap (W * H) D, range_mul_flatMap W H, List.flatMap_assoc]
  congr 1
  funext i
  rw [List.flatMap_map]
  congr 1
  funext j
  congr 1
  funext k
  simp [pos, Nat.add_mul]

/-- The position grows strictly along the lexicographic order of `(i, j, k)`. -/
theorem pos_strictMono (H D i j k i' j' k' : Nat) (hj : j < H) (hk : k < D)
    (hlex : i < i' ∨ (i = i' ∧ (j < j' ∨ (j = j' ∧ k < k')))) :
    pos H D i j k < pos H D i' j' k' := by
  unfold pos
  have h1 : (j + 1) * D ≤ H * D := Nat.mul_le_mul_right D hj
  rw [Nat.succ_mul] at h1
  rw [Nat.mul_assoc i H D, Nat.mul_assoc i' H D]
  rcases hlex with h | ⟨rfl, h | ⟨rfl, h⟩⟩
  · have h2 : (i + 1) * (H * D) ≤ i' * (H * D) := Nat.mul_le_mul_right (H * D) h
    rw [Nat.succ_mul] at h2
    omega
  · have h2 : (j + 1) * D ≤ j' * D := Nat.mul_le_mul_right D h
    rw [Nat.succ_mul] at h2
    omega
  · omega

/-- Claim C13. The triple loop (`i` outermost, `j`, `k` innermost) with
`pos = i*H*D + j*D + k`: the map `(i, j, k) ↦ pos` sends
`[0,W) × [0,H) × [0,D)` into `[0, W*H*D)`, is injective and onto, and grows
strictly along the lexicographic order; the positions are visited in the order
`0, 1, ..., W*H*D - 1`, each once; and the nested traversal with any cell body
is the single loop over `pos` with that body. -/
theorem traversal_is_linear (W H D : Nat) :
    (∀ i j k, i < W → j < H → k < D → pos H D i j k < W * H * D) ∧
    (∀ i j k i' j' k', j < H → k < D → j' < H → k' < D →
      pos H D i j k = pos H D i' j' k' → i = i' ∧ j = j' ∧ k = k') ∧
    (∀ p, p < W * H * D → ∃ i j k, i < W ∧ j < H ∧ k < D ∧ pos H D i j k = p) ∧
    (∀ i j k i' j' k', j < H → k < D →
      (i < i' ∨ (i = i' ∧ (j < j' ∨ (j = j' ∧ k < k')))) →
      pos H D i j k < pos H D i' j' k') ∧
    visitOrder W H D = List.range (W * H * D) ∧
    (∀ (cell : State → Nat → Except Fault State) (s : State),
      traverse W H D cell s = (List.range (W * H * D)).foldlM cell s) := by
  refine ⟨pos_lt W H D, ?_, ?_, ?_, visitOrder_eq_range W H D, traverse_eq_flat W H D⟩
  · intro i j k i' j' k' hj hk hj' hk' e
    rcases Nat.lt_trichotomy i i' with h | h | h
    · have := pos_strictMono H D i j k i' j' k' hj hk (Or.inl h)
      omega
    · subst h
      rcases Nat.lt_trichotomy j j' with h | h | h
      · have := pos_strictMono H D i j k i j' k' hj hk (Or.inr ⟨rfl, Or.inl h⟩)
        omega
      · subst h
        rcases Nat.lt_trichotomy k k' with h | h | h
        · have := pos_strictMono H D i j k i j k' hj hk (Or.inr ⟨rfl, Or.inr ⟨rfl, h⟩⟩)
          omega
        · exact ⟨rfl, rfl, h⟩
        · have := pos_strictMono H D i j k' i j k hj hk' (Or.inr ⟨rfl, Or.inr ⟨rfl, h⟩⟩)
          omega
      · have := pos_strictMono H D i j' k' i j k hj' hk' (Or.inr ⟨rfl, Or.inl h⟩)
        omega
    · have := pos_strictMono H D i' j' k' i j k hj' hk' (Or.inl h)
      omega
  · intro p hp
    have hmem : p ∈ visitOrder W H D := by
      rw [visitOrder_eq_range]
      exact List.mem_range.mpr hp
    unfold visitOrder at hmem
    simp only [List.mem_flatMap, List.mem_map, List.mem_range] at hmem
    obtain ⟨i, hi, j, hj, k, hk, e⟩ := hmem
    exact ⟨i, j, k, hi, hj, hk, e⟩
  · intro i j k i' j' k' hj hk hlex
    exact pos_strictMono H D i j k i' j' k' hj hk hlex

/-- Claim C13 on a 2×3×2 grid. -/
theorem traversal_is_linear_witness :
    visitOrder 2 3 2 = List.range (2 * 3 * 2) ∧ pos 3 2 1 2 1 < 2 * 3 * 2 ∧
      ∃ i j k, i < 2 ∧ j < 3 ∧ k < 2 ∧ pos 3 2 i j k = 7 :=
  have h := traversal_is_linear 2 3 2
  ⟨h.2.2.2.2.1, h.1 1 2 1 (by decide) (by decide) (by decide), h.2.2.1 7 (by decide)⟩

/-! ## The prefix-sum form -/

theorem mem_selected (grid : List Bool) (N p : Nat) :
    p ∈ selected grid N ↔ p < N ∧ grid[p]? = some true := by
  simp [selected]

/-- Two occupied positions with the same number of occupied positions before
them are the same position. -/
theorem cubesBefore_inj (grid : List Bool) (p q : Nat) (hp : grid[p]? = some true)
    (hq : grid[q]? = some true) (e : cubesBefore grid p = cubesBefore grid q) : p = q := by
  rcases Nat.lt_trichotomy p q with h | h | h
  · have := cubesBefore_lt_of_true grid p q h hp
    omega
  · exact h
  · have := cubesBefore_lt_of_true grid q p h hq
    omega

/-- The stores of the prefix-sum form for one cell are those of the side loop
run with `cube` set to the slot of the cell. -/
theorem prefixFold_of_sideFold (W H D : Nat) (grid ov : List Bool) (p : Nat) (s : State)
    (hc : s.cube = cubesBefore grid p) :
    ∀ n s', (List.range n).foldlM (sideBody W H D ov p) s = Except.ok s' →
      s'.cube = s.cube ∧
        (List.range n).foldlM (prefixStore W H D grid ov p) s.nonoverlap_mask =
          Except.ok s'.nonoverlap_mask := by
  intro n
  induction n with
  | zero =>
    intro s' h
    simp only [List.range_zero, List.foldlM_nil, pure_eq_ok] at h
    subst h
    exact ⟨rfl, rfl⟩
  | succ n ih =>
    intro s' h
    rw [foldlM_range_succ, bind_eq_ok] at h
    obtain ⟨t, ht, hstep⟩ := h
    obtain ⟨h1, h2⟩ := ih t ht
    rw [sideBody_eq_ok] at hstep
    obtain ⟨v, hv, hlt, rfl⟩ := hstep
    refine ⟨h1, ?_⟩
    rw [foldlM_range_succ, h2]
    show prefixStore W H D grid ov p t.nonoverlap_mask n = _
    unfold prefixStore
    rw [(readAt_eq_ok _ _ _ v).mpr hv, ← hc, ← h1]
    show writeAt t.nonoverlap_mask (side_ix t.cube n) v = _
    exact (writeAt_eq_ok _ _ _ _).mpr ⟨hlt, rfl⟩

/-- One cell of the prefix-sum form: it returns when its six reads and stores
are in bounds, fills the slot of the cell and leaves every other entry. -/
theorem prefixCell_post (W H D : Nat) (grid ov mask : List Bool) (p : Nat)
    (hb : ∀ side, side < 6 → overlaps_ix W H D side p < ov.length ∧
      side_ix (cubesBefore grid p) side < mask.length) :
    ∃ m, prefixCell W H D grid ov mask p = Except.ok m ∧ m.length = mask.length ∧
      (∀ side, side < 6 →
        m[side_ix (cubesBefore grid p) side]? = ov[overlaps_ix W H D side p]?) ∧
      (∀ ix, (∀ side, side < 6 → ix ≠ side_ix (cubesBefore grid p) side) →
        m[ix]? = mask[ix]?) := by
  obtain ⟨s', hs'⟩ := sideLoop_total W H D ov p ⟨cubesBefore grid p, mask, []⟩
    (fun side hs => (hb side hs).1) (fun side hs => (hb side hs).2)
  have P := sideLoop_post W H D ov p _ s' hs'
  have hsim := (prefixFold_of_sideFold W H D grid ov p ⟨cubesBefore grid p, mask, []⟩ rfl
    6 s' hs').2
  refine ⟨s'.nonoverlap_mask, hsim, P.length_eq, ?_, P.frame⟩
  intro side hs
  obtain ⟨v, hv1, hv2⟩ := P.copied side hs
  rw [hv1]
  exact hv2

/-- The prefix-sum form over any list of occupied positions: every listed cell
has its slot filled with its overlap entries, all other entries are those of
the starting mask. -/
theorem prefixSumForm_post (W H D : Nat) (grid ov mask0 : List Bool) (N : Nat)
    (hb : ∀ p, p < N → grid[p]? = some true → ∀ side, side < 6 →
      overlaps_ix W H D side p < ov.length ∧
        side_ix (cubesBefore grid p) side < mask0.length) :
    ∀ order : List Nat, (∀ p, p ∈ order → p < N ∧ grid[p]? = some true) →
      ∃ m, prefixSumForm W H D grid ov mask0 order = Except.ok m ∧
        m.length = mask0.length ∧
        (∀ p, p ∈ order → ∀ side, side < 6 →
          m[side_ix (cubesBefore grid p) side]? = ov[overlaps_ix W H D side p]?) ∧
        (∀ ix, (∀ p, p ∈ order → ∀ side, side < 6 →
            ix ≠ side_ix (cubesBefore grid p) side) →
          m[ix]? = mask0[ix]?) := by
  intro order
  induction order using List.reverseRecOn with
  | nil =>
    intro _
    exact ⟨mask0, rfl, rfl, by intro p hp; simp at hp, by intro ix _; rfl⟩
  | append_singleton l q ih =>
    intro hsel
    obtain ⟨m, hm, hlen, ha, hfr⟩ := ih (fun p hp => hsel p (List.mem_append_left _ hp))
    have hq := hsel q (List.mem_append_right _ (List.mem_singleton_self q))
    obtain ⟨m', hm', hlen', ha', hfr'⟩ := prefixCell_post W H D grid ov m q
      (by rw [hlen]; exact hb q hq.1 hq.2)
    refine ⟨m', ?_, by rw [hlen', hlen], ?_, ?_⟩
    · unfold prefixSumForm at hm ⊢
      rw [List.foldlM_append, hm]
      show (prefixCell W H D grid ov m q >>= pure) = _
      rw [hm']
      rfl
    · intro p hp side hs
      by_cases hc : cubesBefore grid p = cubesBefore grid q
      · have hpsel := hsel p hp
        have e := cubesBefore_inj grid p q hpsel.2 hq.2 hc
        subst e
        exact ha' side hs
      · have hpl : p ∈ l := by
          rcases List.mem_append.mp hp with h | h
          · exact h
          · rw [List.mem_singleton.mp h] at hc
            exact absurd rfl hc
        rw [hfr' _ (fun side' hs' e =>
          hc ((side_ix_inj _ _ side side' hs hs').mp e).1)]
        exact ha p hpl side hs
    · intro ix hix
      rw [hfr' ix (fun side hs =>
        hix q (List.mem_append_right _ (List.mem_singleton_self q)) side hs)]
      exact hfr ix (fun p hp side hs => hix p (List.mem_append_left _ hp) side hs)

/-- Claim C14. Occupancy-gated generator versus the prefix-sum form: with
each occupied cell `p` assigned the slot `c(p)`, the number of occupied
positions before `p`, two different occupied cells store into disjoint
six-entry slices of the mask, and the per-cell stores
`mask[c(p)*6 + side] := overlaps_grid[side*W*H*D + p]` performed for the
occupied cells in any order return the final mask of the sequential run. -/
theorem prefixSumForm_eq_surface_inline (W H D : Nat) (grid ov mask0 : List Bool)
    (s : State) (order : List Nat)
    (h : surface_inline W H D grid ov mask0 = Except.ok s)
    (hperm : List.Perm order (selected grid (W * H * D))) :
    (∀ p q, p ∈ order → q ∈ order → p ≠ q → ∀ side side', side < 6 → side' < 6 →
      cubesBefore grid p * 6 + side ≠ cubesBefore grid q * 6 + side') ∧
    prefixSumForm W H D grid ov mask0 order = Except.ok s.nonoverlap_mask := by
  have I := surface_inline_inv W H D grid ov mask0 s h
  have hmem : ∀ p, p ∈ order → p < W * H * D ∧ grid[p]? = some true := fun p hp =>
    (mem_selected grid _ p).mp (hperm.mem_iff.mp hp)
  constructor
  · intro p q hp hq hne side side' hs hs' e
    have e' : side_ix (cubesBefore grid p) side = side_ix (cubesBefore grid q) side' := e
    exact hne (cubesBefore_inj grid p q (hmem p hp).2 (hmem q hq).2
      ((side_ix_inj _ _ side side' hs hs').mp e').1)
  · obtain ⟨m, hm, hlen, ha, hfr⟩ := prefixSumForm_post W H D grid ov mask0 (W * H * D)
      I.stores order hmem
    rw [hm]
    congr 1
    apply List.ext_getElem?
    intro ix
    have hs : ix % 6 < 6 := Nat.mod_lt _ (by decide)
    by_cases hc : ix / 6 < (selected grid (W * H * D)).length
    · have hsel := List.getElem?_eq_getElem hc
      have h1 := (surface_slot W H D grid ov mask0 s h _ _ hsel _ hs).2.2
      have h2 := ha _ (hperm.mem_iff.mpr (List.getElem_mem hc)) _ hs
      rw [(selected_getElem? grid _ _ _ hsel).2.2, side_ix_div_mod] at h2
      rw [side_ix_div_mod] at h1
      rw [h1, h2]
    · rw [selected_length] at hc
      have h1 := I.content (ix / 6) (ix % 6) hs
      rw [lastWriter_beyond grid (W * H * D) (ix / 6) (by omega), side_ix_div_mod] at h1
      rw [h1]
      apply hfr
      intro p hp side hside e
      rw [← side_ix_div_mod ix] at e
      have e1 := ((side_ix_inj _ _ _ side hs hside).mp e).1
      have := cubesBefore_lt_of_true grid p (W * H * D) (hmem p hp).1 (hmem p hp).2
      omega

/-- Claim C14 on a concrete input: the two occupied cells handled in the order
opposite to that of the traversal. -/
theorem prefixSumForm_eq_surface_inline_witness :
    surface_inline 3 1 1 [true, false, true]
        [true, false, false, false, true, true, true, true, false,
         false, true, true, false, false, false, true, false, true]
        [false, false, false, false, false, false, false, false, false, false, false, false,
         true] =
      Except.ok ⟨2, [true, false, true, false, false, true, false, true, false, true, false,
        true, true], [0, 1, 2, 3, 4, 5, 6, 7, 8, 9, 10, 11]⟩ ∧
    prefixSumForm 3 1 1 [true, false, true]
        [true, false, false, false, true, true, true, true, false,
         false, true, true, false, false, false, true, false, true]
        [false, false, false, false, false, false, false, false, false, false, false, false,
         true] [2, 0] =
      Except.ok [true, false, true, false, false, true, false, true, false, true, false,
        true, true] :=
  ⟨rfl,
    (prefixSumForm_eq_surface_inline 3 1 1 [true, false, true]
      [true, false, false, false, true, true, true, true, false,
       false, true, true, false, false, false, true, false, true]
      [false, false, false, false, false, false, false, false, false, false, false, false,
       true]
      ⟨2, [true, false, true, false, false, true, false, true, false, true, false,
        true, true], [0, 1, 2, 3, 4, 5, 6, 7, 8, 9, 10, 11]⟩ [2, 0] rfl
      (List.Perm.swap 0 2 [])).2⟩

/-! ## The two variants on `visible = grid` -/

theorem foldlM_range_congr {ε σ : Type} (f g : σ → Nat → Except ε σ) (n : Nat)
    (h : ∀ p, p < n → ∀ s, f s p = g s p) (s : σ) :
    (List.range n).foldlM f s = (List.range n).foldlM g s := by
  induction n with
  | zero => rfl
  | succ n ih =>
    rw [foldlM_range_succ, foldlM_range_succ, ih (fun p hp => h p (Nat.lt_succ_of_lt hp))]
    congr 1
    funext t
    exact h n (Nat.lt_succ_self n) t

theorem glassCell_congr (W H D : Nat) (grid visible visible' ov : List Bool) (s : State)
    (p : Nat) (h : visible[p]? = visible'[p]?) :
    glassCell W H D grid visible ov s p = glassCell W H D grid visible' ov s p := by
  unfold glassCell readAt
  rw [h]

/-- Claim C15. When `visible` agrees with `grid` at every position below
`W*H*D`, the decoupled-selection generator (`glass_inline.c`) returns a state
exactly when the occupancy-gated generator (`surface_inline.c`) returns it:
same final mask, same final counter (and same stores), for every `W`, `H`,
`D`, overlap table and starting mask; and both return when the arrays are
long enough. -/
theorem glass_inline_eq_surface_inline (W H D : Nat) (grid visible ov mask0 : List Bool)
    (hv : ∀ p, p < W * H * D → visible[p]? = grid[p]?) :
    (∀ s, glass_inline W H D grid visible ov mask0 = Except.ok s ↔
      surface_inline W H D grid ov mask0 = Except.ok s) ∧
    (W * H * D ≤ grid.length → 6 * (W * H * D) ≤ ov.length →
      6 * (selected grid (W * H * D)).length ≤ mask0.length →
      ∃ s, glass_inline W H D grid visible ov mask0 = Except.ok s ∧
        surface_inline W H D grid ov mask0 = Except.ok s) := by
  have e : glass_inline W H D grid visible ov mask0 =
      glass_inline W H D grid grid ov mask0 := by
    unfold glass_inline
    rw [traverse_eq_flat, traverse_eq_flat]
    exact foldlM_range_congr _ _ _
      (fun p hp t => glassCell_congr W H D grid visible grid ov t p (hv p hp)) _
  constructor
  · intro s
    rw [e, surface_inline_eq_ok]
  · intro hg hov hm
    obtain ⟨s, hs⟩ := surface_inline_total W H D grid ov mask0 hg hov
      (by rw [← selected_length]; exact hm)
    exact ⟨s, by rw [e, ← surface_inline_eq_ok]; exact hs, hs⟩

/-- Claim C15 on a concrete input; `visible` is longer than `grid` and agrees with
it on the two positions of the lattice. -/
theorem glass_inline_eq_surface_inline_witness :
    glass_inline 2 1 1 [false, true] [false, true, true]
        [true, false, false, true, true, false, false, true, true, false, false, true]
        [false, false, false, false, false, false] =
      Except.ok ⟨1, [false, true, false, true, false, true], [0, 1, 2, 3, 4, 5]⟩ ∧
    surface_inline 2 1 1 [false, true]
        [true, false, false, true, true, false, false, true, true, false, false, true]
        [false, false, false, false, false, false] =
      Except.ok ⟨1, [false, true, false, true, false, true], [0, 1, 2, 3, 4, 5]⟩ :=
  ⟨rfl,
    ((glass_inline_eq_surface_inline 2 1 1 [false, true] [false, true, true]
      [true, false, false, true, true, false, false, true, true, false, false, true]
      [false, false, false, false, false, false] (by decide)).1
      ⟨1, [false, true, false, true, false, true], [0, 1, 2, 3, 4, 5]⟩).mp rfl⟩

/-! ## What the run leaves untouched -/

/-- Claim C16. Occupancy-gated generator: whenever the run returns, every
mask entry at an index at or beyond `6 * cube` (for the final `cube`) has its
starting value and the mask has its starting length; the run returns when the
arrays are long enough.  The grid and the overlap table are parameters of the
run that no statement of `surface_inline.c` assigns: the state that the run
transforms holds only `cube` and `nonoverlap_mask`. -/
theorem surface_inline_frame (W H D : Nat) (grid ov mask0 : List Bool) :
    (∀ s, surface_inline W H D grid ov mask0 = Except.ok s →
      s.nonoverlap_mask.length = mask0.length ∧
        ∀ ix, 6 * s.cube ≤ ix → s.nonoverlap_mask[ix]? = mask0[ix]?) ∧
    (W * H * D ≤ grid.length → 6 * (W * H * D) ≤ ov.length →
      6 * (selected grid (W * H * D)).length ≤ mask0.length →
      ∃ s, surface_inline W H D grid ov mask0 = Except.ok s) := by
  constructor
  · intro s h
    have I := surface_inline_inv W H D grid ov mask0 s h
    refine ⟨I.length_eq, ?_⟩
    intro ix hix
    have hs : ix % 6 < 6 := Nat.mod_lt _ (by decide)
    have hc := I.content (ix / 6) (ix % 6) hs
    rw [lastWriter_beyond grid (W * H * D) (ix / 6) (by rw [← I.cube_eq]; omega),
      side_ix_div_mod] at hc
    exact hc
  · intro hg hov hm
    exact surface_inline_total W H D grid ov mask0 hg hov
      (by rw [← selected_length]; exact hm)

/-- Claim C16 on a concrete input: a mask of nine entries of which the run fills
six. -/
theorem surface_inline_frame_witness :
    surface_inline 2 1 1 [false, true]
        [true, false, false, true, true, false, false, true, true, false, false, true]
        [true, true, true, true, true, true, true, false, true] =
      Except.ok ⟨1, [false, true, false, true, false, true, true, false, true],
        [0, 1, 2, 3, 4, 5]⟩ ∧
    ∀ ix, 6 * 1 ≤ ix →
      ([false, true, false, true, false, true, true, false, true] : List Bool)[ix]? =
        ([true, true, true, true, true, true, true, false, true] : List Bool)[ix]? :=
  ⟨rfl,
    ((surface_inline_frame 2 1 1 [false, true]
      [true, false, false, true, true, false, false, true, true, false, false, true]
      [true, true, true, true, true, true, true, false, true]).1
      ⟨1, [false, true, false, true, false, true, true, false, true], [0, 1, 2, 3, 4, 5]⟩
      rfl).2⟩

/-! ## The index arithmetic in 32-bit integers -/

theorem wrap32_of_le (x : Nat) (h : x ≤ INT_MAX) : wrap32 x = x := by
  unfold wrap32
  unfold INT_MAX at h
  exact Nat.mod_eq_of_lt (by omega)

theorem cubesBefore_le (grid : List Bool) (p : Nat) : cubesBefore grid p ≤ p := by
  unfold cubesBefore
  exact Nat.le_trans (List.count_le_length true (grid.take p))
    (by rw [List.length_take]; exact Nat.min_le_left _ _)

/-- Claim C17. With `W`, `H`, `D` such that `6*W*H*D ≤ 2^31 - 1`, at every
iteration of the occupancy-gated generator (`i < W`, `j < H`, `k < D`, which
makes `W`, `H`, `D` positive, `side < 6`, and `cube` the number of occupied
positions before `pos`) each intermediate value `i*H`, `i*H*D`, `j*D`, `i*H*D + j*D`, `pos`, `side*W`,
`side*W*H`, `side*W*H*D`, `side*W*H*D + pos`, `cube*6`, `cube*6 + side` is at
most `2^31 - 1`, so the three index expressions computed with every
intermediate result reduced modulo `2^32` are the exact indices. -/
theorem index_arithmetic_fits_int32 (W H D : Nat) (grid : List Bool) (i j k side : Nat)
    (hfit : 6 * W * H * D ≤ 2 ^ 31 - 1)
    (hi : i < W) (hj : j < H) (hk : k < D) (hside : side < 6) :
    (i * H ≤ INT_MAX ∧ i * H * D ≤ INT_MAX ∧ j * D ≤ INT_MAX ∧
      i * H * D + j * D ≤ INT_MAX ∧ pos H D i j k ≤ INT_MAX ∧
      side * W ≤ INT_MAX ∧ side * W * H ≤ INT_MAX ∧ side * W * H * D ≤ INT_MAX ∧
      side * W * H * D + pos H D i j k ≤ INT_MAX ∧
      cubesBefore grid (pos H D i j k) * 6 ≤ INT_MAX ∧
      cubesBefore grid (pos H D i j k) * 6 + side ≤ INT_MAX) ∧
    pos32 H D i j k = pos H D i j k ∧
    overlaps_ix32 W H D side (pos H D i j k) = overlaps_ix W H D side (pos H D i j k) ∧
    side_ix32 (cubesBefore grid (pos H D i j k)) side =
      side_ix (cubesBefore grid (pos H D i j k)) side := by
  have hH : 0 < H := Nat.lt_of_le_of_lt (Nat.zero_le j) hj
  have hD : 0 < D := Nat.lt_of_le_of_lt (Nat.zero_le k) hk
  have hfit' : 6 * (W * H * D) ≤ 2 ^ 31 - 1 := by
    have e : 6 * W * H * D = 6 * (W * H * D) := by ring
    omega
  have a1 : i * H + H ≤ W * H := by
    have := Nat.mul_le_mul_right H hi
    rwa [Nat.succ_mul] at this
  have a2 : i * H * D + H * D ≤ W * H * D := by
    have := Nat.mul_le_mul_right D a1
    rwa [Nat.add_mul] at this
  have a3 : j * D + D ≤ H * D := by
    have := Nat.mul_le_mul_right D hj
    rwa [Nat.succ_mul] at this
  have a4 : W * H ≤ W * H * D := Nat.le_mul_of_pos_right _ hD
  have a5 : W ≤ W * H := Nat.le_mul_of_pos_right _ hH
  have a6 : side * W ≤ 5 * W := Nat.mul_le_mul_right W (by omega)
  have a7 : side * W * H ≤ 5 * (W * H) := by
    rw [Nat.mul_assoc]
    exact Nat.mul_le_mul_right _ (by omega)
  have a8 : side * W * H * D ≤ 5 * (W * H * D) := by
    rw [Nat.mul_assoc, Nat.mul_assoc, ← Nat.mul_assoc W H D]
    exact Nat.mul_le_mul_right _ (by omega)
  have a9 := cubesBefore_le grid (pos H D i j k)
  have hp : pos H D i j k = i * H * D + j * D + k := rfl
  have b1 : i * H ≤ INT_MAX := by unfold INT_MAX; omega
  have b2 : i * H * D ≤ INT_MAX := by unfold INT_MAX; omega
  have b3 : j * D ≤ INT_MAX := by unfold INT_MAX; omega
  have b4 : i * H * D + j * D ≤ INT_MAX := by unfold INT_MAX; omega
  have b5 : pos H D i j k ≤ INT_MAX := by unfold INT_MAX; omega
  have b6 : side * W ≤ INT_MAX := by unfold INT_MAX; omega
  have b7 : side * W * H ≤ INT_MAX := by unfold INT_MAX; omega
  have b8 : side * W * H * D ≤ INT_MAX := by unfold INT_MAX; omega
  have b9 : side * W * H * D + pos H D i j k ≤ INT_MAX := by unfold INT_MAX; omega
  have b10 : cubesBefore grid (pos H D i j k) * 6 ≤ INT_MAX := by unfold INT_MAX; omega
  have b11 : cubesBefore grid (pos H D i j k) * 6 + side ≤ INT_MAX := by
    unfold INT_MAX; omega
  refine ⟨⟨b1, b2, b3, b4, b5, b6, b7, b8, b9, b10, b11⟩, ?_, ?_, ?_⟩
  · unfold pos32
    rw [wrap32_of_le _ b1, wrap32_of_le _ b2, wrap32_of_le _ b3, wrap32_of_le _ b4]
    exact wrap32_of_le _ b5
  · unfold overlaps_ix32
    rw [wrap32_of_le _ b6, wrap32_of_le _ b7, wrap32_of_le _ b8]
    exact wrap32_of_le _ b9
  · unfold side_ix32
    rw [show SQUARES_PER_CUBE = 6 from rfl, wrap32_of_le _ b10]
    exact wrap32_of_le _ b11

/-- Claim C17 on a concrete iteration in a 2×3×4 grid. -/
theorem index_arithmetic_fits_int32_witness :
    pos32 3 4 1 2 3 = pos 3 4 1 2 3 ∧
    overlaps_ix32 2 3 4 5 (pos 3 4 1 2 3) = overlaps_ix 2 3 4 5 (pos 3 4 1 2 3) ∧
    side_ix32 (cubesBefore (List.replicate 24 true) (pos 3 4 1 2 3)) 5 =
      side_ix (cubesBefore (List.replicate 24 true) (pos 3 4 1 2 3)) 5 :=
  (index_arithmetic_fits_int32 2 3 4 (List.replicate 24 true) 1 2 3 5
    (by decide) (by decide) (by decide) (by decide) (by decide)).2

end Silica
